import Mathlib

/-!
# SubmitFlow — shallow embedding of the agentic submission loop

This file embeds, in Lean, the core of the SubmitFlow repository
(`app/services/job_executor.py`, `app/services/browser.py`,
`app/services/llm_client.py`, `app/api/routes/jobs.py`) and proves
properties of the embedded code.

Conventions of the embedding:
* Dynamic (duck-typed) Python values coming back from `json.loads` and from
  the LLM are modelled by the inductive type `PyVal`.
* The Python standard-library JSON decoder is external to the repository; it
  is passed around as an explicit parameter `loads : String → Option PyVal`
  (`Option.none` models a `json.JSONDecodeError`).
* Stateful code is modelled by explicit state passing; exceptions are
  modelled by `Except String` results, where the `String` is the exception
  text (`str(e)` in Python).
* Wall-clock time for the rate limiter is modelled by `ℚ`; `time.sleep(d)`
  is idealised as advancing the clock by exactly `d`.
* External collaborators (Playwright page, AgentQL service, OpenAI endpoint,
  filesystem) are modelled as oracle functions carried in environment
  structures; the control flow of the repository's own code is translated
  line by line.
-/

namespace SubmitFlow

/-- A Python value as produced by `json.loads` / returned by the LLM layer.
`dict` entries are listed in insertion order with (as in a real Python dict)
pairwise distinct keys. -/
inductive PyVal where
  | none
  | bool (b : Bool)
  | int (n : Int)
  | str (s : String)
  | list (xs : List PyVal)
  | dict (entries : List (PyVal × PyVal))

/-- The quote character used by Python `repr` on strings. -/
def pyQuote : String := String.singleton (Char.ofNat 39)

/-- Python `repr()` restricted to the values of `PyVal` (string escaping is
not modelled). `str()` on containers falls back to this. -/
def pyRepr : PyVal → String
  | .none => "None"
  | .bool true => "True"
  | .bool false => "False"
  | .int n => toString n
  | .str s => pyQuote ++ s ++ pyQuote
  | .list xs =>
      "[" ++ String.intercalate ", " (xs.attach.map (fun x => pyRepr x.1)) ++ "]"
  | .dict es =>
      "\x7b" ++
        String.intercalate ", "
          (es.attach.map (fun e => pyRepr e.1.1 ++ ": " ++ pyRepr e.1.2)) ++
        "\x7d"
decreasing_by
  all_goals simp only [PyVal.list.sizeOf_spec, PyVal.dict.sizeOf_spec]
  all_goals first
    | (have hmem := List.sizeOf_lt_of_mem x.2
       omega)
    | (have h1 := List.sizeOf_lt_of_mem e.2
       have h2 : sizeOf e.1.1 + sizeOf e.1.2 < sizeOf e.1 := by
         cases e.1 with
         | mk a b => simp only [Prod.mk.sizeOf_spec]; omega
       omega)

/-- Python `str()`. -/
def pyStr : PyVal → String
  | .str s => s
  | v => pyRepr v

/-- Python `==` between a value and a `str` (used both for dict key lookup
and for comparisons like `status == "CONTINUE"`). Within `PyVal`, only a
`str` can equal a `str`. -/
def pyEqStr : PyVal → String → Bool
  | .str s, k => s == k
  | _, _ => false

/-! ### Python string primitives

`str.strip`, `str.split` and `in` are re-implemented structurally (rather
than through `String.trim`/`String.splitOn`) so that every definition in
this file evaluates by kernel reduction. -/

/-- The characters Python `str.strip()` removes (ASCII whitespace; Unicode
spaces are not modelled). -/
def pyWhitespace (c : Char) : Bool :=
  c == ' ' || c == '\t' || c == '\n' || c == '\r' || c == '\x0b' || c == '\x0c'

/-- Drop leading Python whitespace from a character list. -/
def stripLeading : List Char → List Char
  | [] => []
  | c :: cs => if pyWhitespace c then stripLeading cs else c :: cs

/-- Python `s.strip()`. -/
def pyStrip (s : String) : String :=
  ⟨(stripLeading (stripLeading s.data).reverse).reverse⟩

/-- Does the character list start with `pat`? -/
def charsStartWith : List Char → List Char → Bool
  | _, [] => true
  | [], _ :: _ => false
  | c :: cs, p :: ps => c == p && charsStartWith cs ps

/-- Python `s.startswith(pat)` / `PurePath.is_absolute` support. -/
def strStartsWith (s pat : String) : Bool :=
  charsStartWith s.data pat.data

/-- Worker for `pySplit`: split `l` at non-overlapping, leftmost
occurrences of `pat`; `acc` holds the current segment, `fuel` bounds the
recursion (call with `fuel = l.length`). -/
def splitChars (pat : List Char) : Nat → List Char → List Char → List (List Char)
  | _, [], acc => [acc]
  | 0, l, acc => [acc ++ l]
  | fuel + 1, c :: cs, acc =>
      if charsStartWith (c :: cs) pat then
        acc :: splitChars pat fuel (List.drop pat.length (c :: cs)) []
      else
        splitChars pat fuel cs (acc ++ [c])

/-- Python `s.split(sep)` for a non-empty separator. -/
def pySplit (s sep : String) : List String :=
  (splitChars sep.data s.data.length s.data []).map (fun l => ⟨l⟩)

/-- A Python dict payload (ordered entry list, distinct keys). -/
abbrev PyDict := List (PyVal × PyVal)

/-- Python `d.get(k, dflt)` for a string key. -/
def dictGet (es : PyDict) (k : String) (dflt : PyVal) : PyVal :=
  match es.find? (fun e => pyEqStr e.1 k) with
  | Option.none => dflt
  | some e => e.2

/-- Python `k in d` for a string key. -/
def dictHasKey (es : PyDict) (k : String) : Bool :=
  (es.find? (fun e => pyEqStr e.1 k)).isSome

/-- Is this value a Python dict? (`isinstance(v, dict)`). -/
def isPyDict : PyVal → Bool
  | .dict _ => true
  | _ => false

/-- `JobExecutor._agentql_query_to_string`
(`app/services/job_executor.py`, lines 27–45): coerce the LLM's
`agentql_query` into a query string. -/
def agentqlQueryToString : PyVal → String
  | .none => ""
  | .str s => s
  | .dict es =>
      let keys := (es.map (fun e => e.1)).filterMap (fun k =>
        match k with
        | .str s => if pyStrip s ≠ "" then some s else Option.none
        | _ => Option.none)
      if keys ≠ [] then "\x7b " ++ String.intercalate ", " keys ++ " \x7d" else ""
  | .list xs =>
      let keys := (xs.map (fun x => pyStrip (pyStr x))).filter (fun s => s ≠ "")
      if keys ≠ [] then "\x7b " ++ String.intercalate ", " keys ++ " \x7d" else ""
  | _ => ""

/-- Second half of `JobExecutor._normalize_actions` (lines 58–62): after the
optional JSON decode, a dict becomes a singleton list, a list keeps only its
dict entries, anything else becomes `[]`. -/
def normalizeShape : PyVal → List PyVal
  | .dict es => [.dict es]
  | .list xs => xs.filter isPyDict
  | _ => []

/-- `JobExecutor._normalize_actions` (lines 47–62). `loads` is the external
`json.loads`; `Option.none` models a decode failure. -/
def normalizeActions (loads : String → Option PyVal) : PyVal → List PyVal
  | .none => []
  | .str s =>
      match loads s with
      | Option.none => []
      | some v => normalizeShape v
  | v => normalizeShape v

/-! ## LLM client (`app/services/llm_client.py`) -/

/-- Python `pat in s` (substring test), phrased through `str.split` semantics. -/
def strContains (s pat : String) : Bool := 2 ≤ (pySplit s pat).length

/-- The markdown-fence stripping of `LLMClient._parse_response` (lines 93–97). -/
def stripCodeFence (s : String) : String :=
  if strContains s "```json" then
    pySplit ((pySplit s "```json").getD 1 "") "```" |>.headD ""
  else if strContains s "```" then
    pySplit ((pySplit s "```").getD 1 "") "```" |>.headD ""
  else s

/-- The decision `_parse_response` synthesizes on a JSON decode failure
(lines 100–108). -/
def parseFailedDecision : PyVal :=
  .dict [(.str "status", .str "FAILED"),
         (.str "thought", .str "Could not parse LLM response as JSON"),
         (.str "workflow_state", .str "FAILED"),
         (.str "agentql_query", .str ""),
         (.str "actions", .list [])]

/-- `LLMClient._parse_response` (lines 90–108): strip an optional markdown
code fence, `str.strip()`, then `json.loads`; a decode failure yields the
synthesized `FAILED` decision. -/
def parseResponse (loads : String → Option PyVal) (text : String) : PyVal :=
  match loads (pyStrip (stripCodeFence text)) with
  | some v => v
  | Option.none => parseFailedDecision

/-- The decision `analyze_page` synthesizes when the model call (or anything
inside its `try` block) raises (lines 80–88). -/
def llmCallFailedDecision (e : String) : PyVal :=
  .dict [(.str "status", .str "FAILED"),
         (.str "thought", .str ("LLM call failed: " ++ e)),
         (.str "workflow_state", .str "FAILED"),
         (.str "agentql_query", .str ""),
         (.str "actions", .list [])]

/-- `LLMClient.analyze_page` (lines 24–88). The chat-completion call is
external; `call` is its outcome: `.ok text` is the response content,
`.error e` any exception raised in the `try` block (network failure, etc.).
The prompt-building inputs (screenshot, product data, history) only influence
`call` and are absorbed into it. -/
def analyzePage (loads : String → Option PyVal) (call : Except String String) : PyVal :=
  match call with
  | .error e => llmCallFailedDecision e
  | .ok text => parseResponse loads text

/-! ## AgentQL rate limiter (`app/services/browser.py`, lines 18–35, 153–169)

Wall-clock instants are rationals. `time.sleep` is idealised as advancing
the clock by exactly the requested amount, and `time.time()` immediately
after the sleep as returning exactly the advanced instant. The deque with
`maxlen=10` is a `List ℚ`, oldest first; appending to a full deque drops the
front element. -/

def AGENTQL_RATE_LIMIT : Nat := 10

def AGENTQL_RATE_WINDOW : ℚ := 60

/-- The `while` loop of `_wait_for_rate_limit` (lines 158–159): pop entries
older than the window from the front of the deque. -/
def pruneOld (now : ℚ) : List ℚ → List ℚ
  | [] => []
  | t :: ts => if AGENTQL_RATE_WINDOW < now - t then pruneOld now ts else t :: ts

/-- One call of `BrowserService._wait_for_rate_limit` (lines 153–169),
started at instant `now` with deque `times`: returns the instant at which
the call is recorded (after an optional sleep) and the new deque. -/
def rateLimitStep (times : List ℚ) (now : ℚ) : ℚ × List ℚ :=
  let q := pruneOld now times
  let recorded :=
    if AGENTQL_RATE_LIMIT ≤ q.length then
      let waitTime := AGENTQL_RATE_WINDOW - (now - q.headD 0) + 1
      if 0 < waitTime then now + waitTime else now
    else now
  let q2 := q ++ [recorded]
  (recorded, if AGENTQL_RATE_LIMIT < q2.length then q2.tail else q2)

/-- A sequence of sequential `_wait_for_rate_limit` calls. The `k`-th entry
of `reqs` is the instant the caller issues call `k`; since the calls are
sequential, a call cannot start before the previous one was recorded, so its
effective start is `max lastRec r`. Returns the recorded call instants. -/
def rlRun (times : List ℚ) (lastRec : ℚ) : List ℚ → List ℚ
  | [] => []
  | r :: rest =>
      let step := rateLimitStep times (max lastRec r)
      step.1 :: rlRun step.2 step.1 rest

/-- Recorded call instants for a fresh `BrowserService` (empty deque). -/
def recordedTimes : List ℚ → List ℚ
  | [] => []
  | r :: rest => rlRun [] r (r :: rest)

/-! ## Browser navigation and action execution (`app/services/browser.py`) -/

/-- Result of `BrowserService.navigate`: the outcome (an exception from
`page.goto` propagates) and whether the network-idle settle timed out (that
timeout is caught and only logged, lines 133–137). -/
structure NavResult where
  outcome : Except String Unit
  warnedSettleTimeout : Bool

/-- `BrowserService.navigate` (lines 129–138). `gotoResult` is the outcome of
the external `page.goto`; `settleTimeout` tells whether
`wait_for_load_state("networkidle")` timed out. -/
def browserNavigate (gotoResult : Except String Unit) (settleTimeout : Bool) : NavResult :=
  match gotoResult with
  | .error e => ⟨.error e, false⟩
  | .ok _ => ⟨.ok (), settleTimeout⟩

/-- A low-level page interaction performed by `execute_actions`. -/
inductive ActEffect where
  | fill (target : String) (value : PyVal)
  | click (target : String)
  | press (key : String)
  | upload (target : String) (files : List String)

/-- External world seen by `execute_actions`: the working directory, the
filesystem, the AgentQL `page.query_elements` call, and the raise behaviour
of the Playwright element interactions. `queryElements q` is `Option.none`
when the call raises or returns `None`; a returned table maps an element
name to `some ()` exactly when `getattr(response, name, None)` is not
`None`. Each interaction may raise (e.g. `element.fill` with a non-string
value, a forced click that still fails, `keyboard.press` with an invalid
key name, `set_input_files` on a non-file-input element — the code's own
comment at browser.py line 251); such an exception is caught by the
batch-level `except` (lines 262–264) and turns into `return False`:
* `fillRaises target value` — `element.fill(value)` raises;
* `clickRaises target` — the normal click failed *and* the forced retry
  click (line 221) raises, so the whole click block raises;
* `pressRaises key` — `page.keyboard.press(key)` raises;
* `uploadRaises target files` — `element.set_input_files(...)` raises. -/
structure BrowserEnv where
  cwd : String
  fsExists : String → Bool
  queryElements : String → Option (String → Option Unit)
  fillRaises : String → PyVal → Bool
  clickRaises : String → Bool
  pressRaises : String → Bool
  uploadRaises : String → List String → Bool

/-- Path resolution in the upload branch (lines 238–241): POSIX model; a
path is absolute iff it starts with `/`, and `(Path.cwd() / p).resolve()` is
modelled as plain joining (no `..`/symlink normalisation). -/
def resolveUploadPath (cwd p : String) : String :=
  if strStartsWith p "/" then p else cwd ++ "/" ++ p

/-- Extraction of the upload path list from the action's `value`
(lines 225–235). -/
def uploadPathsOf : PyVal → List String
  | .str s => [s]
  | .list xs => xs.map pyStr
  | .dict es =>
      if dictHasKey es "path" then [pyStr (dictGet es "path" .none)]
      else if dictHasKey es "paths" then
        match dictGet es "paths" .none with
        | .list xs => xs.map pyStr
        | _ => []
      else []
  | _ => []

/-- The resolve-and-check loop over upload paths (lines 237–245):
`Option.none` as soon as one resolved path does not exist. -/
def resolveUploads (cwd : String) (fs : String → Bool) : List String → Option (List String)
  | [] => some []
  | p :: rest =>
      let pp := resolveUploadPath cwd p
      if fs pp then (resolveUploads cwd fs rest).map (fun l => pp :: l)
      else Option.none

/-- The `for action in actions` loop of `execute_actions` (lines 199–258).
Accumulates the performed interactions. A first component `false` models the
`return False` paths: upload failure, or an exception caught by the
surrounding `except` (lines 262–264) — from `action.get` on a non-dict,
from `getattr` with a non-string name, or from a raising element
interaction (the `…Raises` oracles of `BrowserEnv`). -/
def runActions (env : BrowserEnv) (table : String → Option Unit) :
    List PyVal → List ActEffect → Bool × List ActEffect
  | [], effs => (true, effs)
  | a :: rest, effs =>
    match a with
    | .dict es =>
      let actionType := dictGet es "type" .none
      let value := dictGet es "value" (.str "")
      match dictGet es "target_element_name" .none with
      | .str tname =>
        match table tname with
        | Option.none => runActions env table rest effs
        | some _ =>
          if pyEqStr actionType "fill" then
            if env.fillRaises tname value then (false, effs)
            else runActions env table rest (effs ++ [.fill tname value])
          else if pyEqStr actionType "click" then
            if env.clickRaises tname then (false, effs)
            else runActions env table rest (effs ++ [.click tname])
          else if pyEqStr actionType "press" then
            if env.pressRaises (pyStr value) then (false, effs)
            else runActions env table rest (effs ++ [.press (pyStr value)])
          else if pyEqStr actionType "upload" || pyEqStr actionType "upload_file"
              || pyEqStr actionType "set_input_files" then
            match resolveUploads env.cwd env.fsExists (uploadPathsOf value) with
            | Option.none => (false, effs)
            | some [] => (false, effs)
            | some resolved =>
                if env.uploadRaises tname resolved then (false, effs)
                else runActions env table rest (effs ++ [.upload tname resolved])
          else runActions env table rest effs
      | _ => (false, effs)
    | _ => (false, effs)

/-- `BrowserService.execute_actions` (lines 171–264). The rate-limiter wait
(line 188) only delays; its clock state is modelled separately above. -/
def executeActions (env : BrowserEnv) (query : String) (actions : List PyVal) :
    Bool × List ActEffect :=
  if actions.isEmpty then (true, [])
  else
    match env.queryElements query with
    | Option.none => (false, [])
    | some table => runActions env table actions []

/-! ## Data model (`app/models/…`, `app/api/routes/jobs.py`) -/

/-- `AttemptStatus` (`app/models/submission_attempt.py`). -/
inductive AttemptStatus where
  | NOT_STARTED
  | IN_PROGRESS
  | SUBMITTED
  | PENDING_APPROVAL
  | FAILED
deriving DecidableEq

/-- `JobStatus` (`app/models/submission_job.py`). -/
inductive JobStatus where
  | NOT_STARTED
  | IN_PROGRESS
  | PAUSED
  | COMPLETED
  | FAILED
deriving DecidableEq

/-- A `SubmissionAttempt` row; timestamps are modelled as set/unset flags. -/
structure Attempt where
  directoryId : Nat
  status : AttemptStatus
  startedAt : Bool
  completedAt : Bool
  errorMessage : Option String
deriving DecidableEq

/-- A `Directory` row (the fields `_execute_attempt` reads). -/
structure Directory where
  name : String
  submissionUrl : String
deriving DecidableEq

/-- A `SubmissionJob` row; timestamps are modelled as set/unset flags. -/
structure Job where
  status : JobStatus
  totalDirectories : Nat
  completedCount : Nat
  failedCount : Nat
  startedAt : Bool
  completedAt : Bool
deriving DecidableEq

/-- An `AgentActionLog` row as written by `_execute_attempt`
(`executed_at` omitted). `error` is a `PyVal` because the code stores
`llm_response.get("thought")` there, which may be any JSON value or `None`. -/
structure ActionLog where
  stepNumber : Nat
  screenshotPath : String
  llmThought : PyVal
  workflowStatus : PyVal
  agentqlQuery : PyVal
  actions : List PyVal
  success : Bool
  error : PyVal

/-- The job/attempt creation of `create_job` (`app/api/routes/jobs.py`,
lines 34–51): column defaults give `completed_count = failed_count = 0`,
`total_directories = len(directory_ids)`, one `NOT_STARTED` attempt per
directory. -/
def createJob (directoryIds : List Nat) : Job × List Attempt :=
  (⟨.NOT_STARTED, directoryIds.length, 0, 0, false, false⟩,
   directoryIds.map (fun d => ⟨d, .NOT_STARTED, false, false, Option.none⟩))

/-! ## `JobExecutor._execute_attempt` (`app/services/job_executor.py`, lines 175–308) -/

/-- External world seen by one attempt, indexed by step number (starting
at 1) where per-step: the screenshot capture (which may raise — any
exception inside the `try` block at line 210 is modelled here), the decision
dict returned by `analyze_page` (always a well-formed dict in this model;
see the `analyzePage` section for the non-dict case), and the page state
behind `execute_actions`. -/
structure AttemptEnv where
  dirs : Nat → Option Directory
  gotoResult : String → Except String Unit
  settleTimeout : Bool
  loads : String → Option PyVal
  capture : Nat → Except String String
  llm : Nat → PyDict
  browser : Nat → BrowserEnv

/-- Result of `_execute_attempt`: the attempt row after the run, the
`AgentActionLog` rows written (in step order), and the outcome — `.ok b` is
a normal `return b`, `.error e` an exception that escaped the method. -/
structure AttemptResult where
  attempt : Attempt
  logs : List ActionLog
  outcome : Except String Bool

/-- `self.max_iterations_per_attempt` (line 69). -/
def MAX_ITERATIONS_PER_ATTEMPT : Nat := 15

/-- The common exit at lines 292–300: the loop ended without `DONE`
(model-reported failure or step ceiling); the attempt is marked `FAILED`
citing the number of steps taken. -/
def attemptFailedExit (a : Attempt) (logs : List ActionLog) (stepNumber : Nat) :
    AttemptResult :=
  ⟨{a with status := .FAILED, completedAt := true,
           errorMessage := some ("Failed after " ++ toString stepNumber ++ " steps")},
   logs, .ok false⟩

/-- The history entry appended at lines 260–272. -/
def histEntry (step : Nat) (thought : PyVal) (actions : List PyVal) (success : Bool) :
    PyVal :=
  .dict [(.str "step", .int step),
         (.str "thought", thought),
         (.str "actions", .list actions),
         (.str "result", .str (if success then "success" else "failed"))]

/-- The `while status == "CONTINUE" and step_number < max` loop of
`_execute_attempt` (lines 211–300), entered with `status = "CONTINUE"`.
`fuel = MAX_ITERATIONS_PER_ATTEMPT - stepNumber` counts the remaining
iterations; `fuel = 0` is the step-ceiling exit. -/
def attemptLoop (env : AttemptEnv) (a : Attempt) (history : List PyVal)
    (logs : List ActionLog) (stepNumber : Nat) : Nat → AttemptResult
  | 0 => attemptFailedExit a logs stepNumber
  | fuel + 1 =>
    let step := stepNumber + 1
    match env.capture step with
    | .error e =>
        ⟨{a with status := .FAILED, completedAt := true, errorMessage := some e},
         logs, .ok false⟩
    | .ok path =>
      let resp := env.llm step
      let rawQuery := dictGet resp "agentql_query" .none
      let queryStr := agentqlQueryToString rawQuery
      let actions := normalizeActions env.loads (dictGet resp "actions" (.list []))
      let thought := dictGet resp "thought" .none
      let log0 : ActionLog :=
        ⟨step, path, thought, dictGet resp "workflow_state" .none,
         rawQuery, actions, true, .none⟩
      let status := dictGet resp "status" (.str "FAILED")
      if pyEqStr status "CONTINUE" then
        if !queryStr.isEmpty && !actions.isEmpty then
          let ok := (executeActions (env.browser step) queryStr actions).1
          let log1 := {log0 with
            success := ok,
            error := if ok then PyVal.none else .str "Action execution failed"}
          attemptLoop env a (history ++ [histEntry step thought actions ok])
            (logs ++ [log1]) step fuel
        else
          attemptLoop env a history (logs ++ [log0]) step fuel
      else if pyEqStr status "DONE" then
        ⟨{a with status := .SUBMITTED, completedAt := true}, logs ++ [log0], .ok true⟩
      else if pyEqStr status "FAILED" then
        attemptFailedExit a (logs ++ [{log0 with success := false, error := thought}]) step
      else
        attemptFailedExit a (logs ++ [log0]) step

/-- `JobExecutor._execute_attempt` (lines 175–308). Note that
`self.browser.navigate(url)` (line 204) sits before the `try` block
(line 210), so an exception raised by `page.goto` escapes the method. -/
def executeAttempt (env : AttemptEnv) (a : Attempt) : AttemptResult :=
  match env.dirs a.directoryId with
  | Option.none => ⟨a, [], .ok false⟩
  | some d =>
    let a1 := {a with status := .IN_PROGRESS, startedAt := true}
    match (browserNavigate (env.gotoResult d.submissionUrl) env.settleTimeout).outcome with
    | .error e => ⟨a1, [], .error e⟩
    | .ok _ => attemptLoop env a1 [] [] 0 MAX_ITERATIONS_PER_ATTEMPT

/-! ## `JobExecutor.execute_job` (`app/services/job_executor.py`, lines 71–173) -/

/-- External world seen by one `execute_job` run. `refresh i` is the job
status an external writer (pause/stop endpoint) has committed when
`db.refresh(job)` runs before dispatching attempt `i` (`Option.none`: no
external write, the status is unchanged); `finalRefresh` likewise for the
`db.refresh(job)` before the completion check (line 154). -/
structure JobEnv where
  productFound : Bool
  browserStartOk : Bool
  attemptEnv : Nat → AttemptEnv
  refresh : Nat → Option JobStatus
  finalRefresh : Option JobStatus

/-- Result of `execute_job`: the final job row, the attempt rows (in fetch
order), how many attempts `_execute_attempt` was invoked on, every job state
this run committed (in commit order), and the method's return value. -/
structure JobRunResult where
  job : Job
  attempts : List Attempt
  processed : Nat
  trace : List Job
  returned : Bool

/-- Lines 153–162: the final refresh and the completion check. Only an
actual transition to `COMPLETED` commits a job state. -/
def jobFinish (env : JobEnv) (job : Job) (attempts : List Attempt) (processed : Nat)
    (trace : List Job) : JobRunResult :=
  let job1 := {job with status := (env.finalRefresh).getD job.status}
  if job1.status = .IN_PROGRESS ∧
      job1.totalDirectories ≤ job1.completedCount + job1.failedCount then
    let job2 := {job1 with status := .COMPLETED, completedAt := true}
    ⟨job2, attempts, processed, trace ++ [job2], true⟩
  else
    ⟨job1, attempts, processed, trace, true⟩

/-- The `for attempt in attempts` loop of `execute_job` (lines 133–151),
attempt index `i`, already-processed rows in `done`. -/
def jobLoop (env : JobEnv) (job : Job) (i : Nat) (done : List Attempt)
    (trace : List Job) : List Attempt → JobRunResult
  | [] => jobFinish env job done i trace
  | a :: rest =>
      let job1 := {job with status := (env.refresh i).getD job.status}
      if job1.status = .PAUSED ∨ job1.status = .FAILED then
        jobFinish env job1 (done ++ a :: rest) i trace
      else
        let r := executeAttempt (env.attemptEnv i) a
        match r.outcome with
        | .error _ =>
            let job2 := {job1 with status := .FAILED, completedAt := true}
            ⟨job2, done ++ r.attempt :: rest, i + 1, trace ++ [job2], false⟩
        | .ok success =>
            let job2 := if success
              then {job1 with completedCount := job1.completedCount + 1}
              else {job1 with failedCount := job1.failedCount + 1}
            jobLoop env job2 (i + 1) (done ++ [r.attempt]) (trace ++ [job2]) rest

/-- `JobExecutor.execute_job` (lines 71–173) over the pending attempts
fetched at lines 128–131 (passed as `attempts`, in fetch order). -/
def executeJob (env : JobEnv) (job : Job) (attempts : List Attempt) : JobRunResult :=
  if ¬(job.status = .NOT_STARTED ∨ job.status = .IN_PROGRESS ∨ job.status = .PAUSED) then
    ⟨job, attempts, 0, [], false⟩
  else if ¬env.productFound then
    ⟨job, attempts, 0, [], false⟩
  else
    let job1 := {job with status := .IN_PROGRESS, startedAt := true}
    if ¬env.browserStartOk then
      let job2 := {job1 with status := .FAILED, completedAt := true}
      ⟨job2, attempts, 0, [job1, job2], false⟩
    else
      jobLoop env job1 0 [] [job1] attempts

/-! ## Claims C8 and C9: decision normalization -/

/-- The non-blank string keys of a dict, in insertion order (the names a
grounding query is built from). -/
def dictStrKeys (es : PyDict) : List String :=
  es.filterMap (fun e =>
    match e.1 with
    | .str s => if pyStrip s = "" then Option.none else some s
    | _ => Option.none)

/-- The stripped, non-blank printed names of a list, in order. -/
def listStrNames (xs : List PyVal) : List String :=
  xs.filterMap (fun x =>
    let t := pyStrip (pyStr x)
    if t = "" then Option.none else some t)

lemma dict_branch_keys (es : PyDict) :
    ((es.map (fun e => e.1)).filterMap (fun k =>
      match k with
      | .str s => if pyStrip s ≠ "" then some s else Option.none
      | _ => Option.none)) = dictStrKeys es := by
  rw [List.filterMap_map]
  unfold dictStrKeys
  congr 1
  funext e
  rcases e with ⟨k, v⟩
  cases k <;> simp [ne_eq, ite_not]

lemma list_branch_keys (xs : List PyVal) :
    (xs.map (fun x => pyStrip (pyStr x))).filter (fun s => s ≠ "") = listStrNames xs := by
  unfold listStrNames
  induction xs with
  | nil => rfl
  | cons x rest ih =>
      simp only [List.map_cons, List.filter_cons, List.filterMap_cons]
      rw [ih]
      by_cases h : pyStrip (pyStr x) = "" <;> simp [h]

lemma all_dicts_of_normalizeShape (w : PyVal) :
    (normalizeShape w).filter isPyDict = normalizeShape w := by
  cases w with
  | dict es => simp [normalizeShape, isPyDict]
  | list xs => simp [normalizeShape, List.filter_filter]
  | _ => simp [normalizeShape]

lemma all_dicts_of_normalizeActions (loads : String → Option PyVal) (v : PyVal) :
    (normalizeActions loads v).filter isPyDict = normalizeActions loads v := by
  cases v with
  | none => rfl
  | str s =>
      show (match loads s with
            | Option.none => []
            | some w => normalizeShape w).filter isPyDict =
          (match loads s with
           | Option.none => []
           | some w => normalizeShape w)
      cases loads s with
      | none => rfl
      | some w => exact all_dicts_of_normalizeShape w
  | bool b => exact all_dicts_of_normalizeShape (.bool b)
  | int n => exact all_dicts_of_normalizeShape (.int n)
  | list xs => exact all_dicts_of_normalizeShape (.list xs)
  | dict es => exact all_dicts_of_normalizeShape (.dict es)

/-- C8 (corrected: the counterexample below forces a non-emptiness proviso):
grounding-query normalization maps a dict to `"{ "` ++ its non-blank string
keys joined by `", "` ++ `" }"` provided at least one such key exists, and
to `""` otherwise; a list likewise over its stripped printed names; a string
is returned unchanged; `None`, numbers and booleans yield `""`. -/
theorem c8_query_normalization :
    (∀ es : PyDict, dictStrKeys es ≠ [] →
      agentqlQueryToString (.dict es) =
        "\x7b " ++ String.intercalate ", " (dictStrKeys es) ++ " \x7d") ∧
    (∀ es : PyDict, dictStrKeys es = [] → agentqlQueryToString (.dict es) = "") ∧
    (∀ xs : List PyVal, listStrNames xs ≠ [] →
      agentqlQueryToString (.list xs) =
        "\x7b " ++ String.intercalate ", " (listStrNames xs) ++ " \x7d") ∧
    (∀ xs : List PyVal, listStrNames xs = [] → agentqlQueryToString (.list xs) = "") ∧
    (∀ s : String, agentqlQueryToString (.str s) = s) ∧
    agentqlQueryToString .none = "" ∧
    (∀ n : Int, agentqlQueryToString (.int n) = "") ∧
    (∀ b : Bool, agentqlQueryToString (.bool b) = "") := by
  refine ⟨fun es h => ?_, fun es h => ?_, fun xs h => ?_, fun xs h => ?_,
    fun s => rfl, rfl, fun n => rfl, fun b => rfl⟩
  · simp only [agentqlQueryToString, dict_branch_keys]
    simp [h]
  · simp only [agentqlQueryToString, dict_branch_keys]
    simp [h]
  · simp only [agentqlQueryToString, list_branch_keys]
    simp [h]
  · simp only [agentqlQueryToString, list_branch_keys]
    simp [h]

/-- C8, counterexample to the claim as stated: an empty dict has no string
keys, and the claimed canonical form would be `"{  }"`, but the code returns
`""`. -/
theorem c8_counterexample :
    agentqlQueryToString (PyVal.dict []) = "" ∧
    agentqlQueryToString (PyVal.dict []) ≠ "\x7b  \x7d" := by
  refine ⟨rfl, ?_⟩
  decide

/-- C8 witness: the claim's own example `{"a": "x", "b": "y"}` normalizes to
`"{ a, b }"`. -/
theorem c8_query_normalization_witness :
    agentqlQueryToString (.dict [(.str "a", .str "x"), (.str "b", .str "y")]) =
      "\x7b a, b \x7d" := by
  have h := c8_query_normalization.1 [(.str "a", .str "x"), (.str "b", .str "y")]
    (by decide)
  simpa using h

/-- C9 (confirmed): normalization is idempotent — re-normalizing a
normalized query string returns it unchanged, and re-normalizing a
normalized action list (which is what feeding the output back in amounts
to) returns it unchanged, for every input value. -/
theorem c9_normalization_idempotent :
    (∀ s : String,
      agentqlQueryToString (.str (agentqlQueryToString (.str s))) =
        agentqlQueryToString (.str s)) ∧
    (∀ (loads : String → Option PyVal) (v : PyVal),
      normalizeActions loads (.list (normalizeActions loads v)) =
        normalizeActions loads v) := by
  constructor
  · intro s
    rfl
  · intro loads v
    have h : normalizeActions loads (.list (normalizeActions loads v)) =
        (normalizeActions loads v).filter isPyDict := rfl
    rw [h, all_dicts_of_normalizeActions]

/-! ## Claim C6: the decision engine -/

/-- C6 (corrected: a successfully parsed non-object JSON value is returned
as-is, see the counterexample): the decision engine never raises — on a
model-call failure it returns the synthesized `FAILED` decision dict with a
diagnostic thought, empty `agentql_query` and empty `actions`; on a JSON
decode failure of the fence-stripped, stripped text it returns the
synthesized parse-failure decision dict; and when the stripped text decodes
to a value, that value (whatever it is) is returned. A markdown `json` code
fence is stripped before parsing. -/
theorem c6_decision_synthesis :
    (∀ (loads : String → Option PyVal) (e : String),
      analyzePage loads (.error e) =
        .dict [(.str "status", .str "FAILED"),
               (.str "thought", .str ("LLM call failed: " ++ e)),
               (.str "workflow_state", .str "FAILED"),
               (.str "agentql_query", .str ""),
               (.str "actions", .list [])]) ∧
    (∀ (loads : String → Option PyVal) (t : String),
      loads (pyStrip (stripCodeFence t)) = Option.none →
      analyzePage loads (.ok t) =
        .dict [(.str "status", .str "FAILED"),
               (.str "thought", .str "Could not parse LLM response as JSON"),
               (.str "workflow_state", .str "FAILED"),
               (.str "agentql_query", .str ""),
               (.str "actions", .list [])]) ∧
    (∀ (loads : String → Option PyVal) (t : String) (v : PyVal),
      loads (pyStrip (stripCodeFence t)) = some v →
      analyzePage loads (.ok t) = v) ∧
    stripCodeFence "intro```json\nPAYLOAD\n```trailer" = "\nPAYLOAD\n" := by
  refine ⟨fun loads e => rfl, fun loads t h => ?_, fun loads t v h => ?_, ?_⟩
  · show parseResponse loads t = _
    unfold parseResponse
    rw [h]
    rfl
  · show parseResponse loads t = v
    unfold parseResponse
    rw [h]
  · decide

/-- A faithful restriction of Python `json.loads` to the single input
exercised by the counterexample below: `json.loads("42")` is the integer
`42` (valid JSON, not an object). -/
def loadsFortyTwo : String → Option PyVal :=
  fun s => if s = "42" then some (.int 42) else Option.none

/-- C6, counterexample to "the attempt loop always receives a well-formed
decision object": a model response whose text is the valid JSON `42` parses
successfully, so `analyze_page` returns the non-dict value `42` unchanged. -/
theorem c6_counterexample :
    analyzePage loadsFortyTwo (.ok "42") = .int 42 ∧
    isPyDict (analyzePage loadsFortyTwo (.ok "42")) = false := by
  constructor <;> rfl

/-- C6 witness: the failure paths of `c6_decision_synthesis` at concrete
inputs — a decoder that rejects everything yields the parse-failure
decision, and a decoder that accepts an object yields that object. -/
theorem c6_decision_synthesis_witness :
    analyzePage (fun _ => Option.none) (.ok "nonsense") =
      .dict [(.str "status", .str "FAILED"),
             (.str "thought", .str "Could not parse LLM response as JSON"),
             (.str "workflow_state", .str "FAILED"),
             (.str "agentql_query", .str ""),
             (.str "actions", .list [])] ∧
    analyzePage (fun _ => some (.dict [(.str "status", .str "DONE")])) (.ok "x") =
      .dict [(.str "status", .str "DONE")] := by
  exact ⟨c6_decision_synthesis.2.1 (fun _ => Option.none) "nonsense" rfl,
         c6_decision_synthesis.2.2.1 (fun _ => some (.dict [(.str "status", .str "DONE")]))
           "x" (.dict [(.str "status", .str "DONE")]) rfl⟩

/-! ## Claim C5: the action batch executor -/

/-- `action_type in {"upload", "upload_file", "set_input_files"}` (line 224). -/
def uploadKind (t : PyVal) : Bool :=
  pyEqStr t "upload" || pyEqStr t "upload_file" || pyEqStr t "set_input_files"

/-- Does this action hard-fail the batch? Mirrors the abort paths of the
`execute_actions` loop: an upload (with a resolvable string target) whose
path list resolves empty or hits a missing file; an element interaction
(fill / click with its forced retry / press / `set_input_files`) that
raises; a non-dict action (`action.get` raises); an action whose
`target_element_name` is missing or not a string (`getattr` raises). -/
def actionHardFails (env : BrowserEnv) (table : String → Option Unit) : PyVal → Bool
  | .dict es =>
      let actionType := dictGet es "type" PyVal.none
      let value := dictGet es "value" (.str "")
      match dictGet es "target_element_name" PyVal.none with
      | .str tname =>
          match table tname with
          | Option.none => false
          | some _ =>
              if pyEqStr actionType "fill" then env.fillRaises tname value
              else if pyEqStr actionType "click" then env.clickRaises tname
              else if pyEqStr actionType "press" then env.pressRaises (pyStr value)
              else if uploadKind actionType then
                match resolveUploads env.cwd env.fsExists (uploadPathsOf value) with
                | Option.none => true
                | some [] => true
                | some resolved => env.uploadRaises tname resolved
              else false
      | _ => true
  | _ => true

lemma pyEqStr_iff (v : PyVal) (k : String) : pyEqStr v k = true ↔ v = .str k := by
  cases v <;> simp [pyEqStr]

lemma runActions_true_iff (env : BrowserEnv) (table : String → Option Unit) :
    ∀ (acts : List PyVal) (effs : List ActEffect),
      (runActions env table acts effs).1 = true ↔
        ∀ a ∈ acts, actionHardFails env table a = false := by
  intro acts
  induction acts with
  | nil => intro effs; simp [runActions]
  | cons a rest ih =>
    intro effs
    rw [List.forall_mem_cons]
    cases a with
    | dict es =>
      simp only [runActions]
      cases htg : dictGet es "target_element_name" PyVal.none with
      | str tname =>
        cases htab : table tname with
        | none =>
          simp only [actionHardFails, htg, htab, ih effs]
          tauto
        | some u =>
          by_cases h1 : pyEqStr (dictGet es "type" PyVal.none) "fill"
          · rw [pyEqStr_iff] at h1
            by_cases hr : env.fillRaises tname (dictGet es "value" (PyVal.str ""))
            · simp [actionHardFails, htg, htab, h1, hr, uploadKind, pyEqStr]
            · simp [actionHardFails, htg, htab, h1, hr, uploadKind, pyEqStr, ih]
          · by_cases h2 : pyEqStr (dictGet es "type" PyVal.none) "click"
            · rw [pyEqStr_iff] at h2
              by_cases hr : env.clickRaises tname
              · simp [actionHardFails, htg, htab, h2, hr, uploadKind, pyEqStr]
              · simp [actionHardFails, htg, htab, h2, hr, uploadKind, pyEqStr, ih]
            · by_cases h3 : pyEqStr (dictGet es "type" PyVal.none) "press"
              · rw [pyEqStr_iff] at h3
                by_cases hr : env.pressRaises (pyStr (dictGet es "value" (PyVal.str "")))
                · simp [actionHardFails, htg, htab, h3, hr, uploadKind, pyEqStr]
                · simp [actionHardFails, htg, htab, h3, hr, uploadKind, pyEqStr, ih]
              · by_cases h4 : uploadKind (dictGet es "type" PyVal.none)
                · simp only [uploadKind, Bool.or_eq_true] at h4
                  cases hres : resolveUploads env.cwd env.fsExists
                      (uploadPathsOf (dictGet es "value" (.str ""))) with
                  | none =>
                    rcases h4 with (h4 | h4) | h4 <;>
                      simp [actionHardFails, htg, htab, h1, h2, h3, h4, hres, uploadKind]
                  | some resolved =>
                    cases resolved with
                    | nil =>
                      rcases h4 with (h4 | h4) | h4 <;>
                        simp [actionHardFails, htg, htab, h1, h2, h3, h4, hres, uploadKind]
                    | cons r rs =>
                      by_cases hr : env.uploadRaises tname (r :: rs)
                      · rcases h4 with (h4 | h4) | h4 <;>
                          simp [actionHardFails, htg, htab, h1, h2, h3, h4, hres, hr,
                            uploadKind]
                      · rcases h4 with (h4 | h4) | h4 <;>
                          simp [actionHardFails, htg, htab, h1, h2, h3, h4, hres, hr,
                            uploadKind, ih]
                · simp only [uploadKind, Bool.or_eq_true, not_or] at h4
                  obtain ⟨⟨h4a, h4b⟩, h4c⟩ := h4
                  simp only [Bool.not_eq_true] at h4a h4b h4c
                  simp [actionHardFails, htg, htab, h1, h2, h3, h4a, h4b, h4c,
                    uploadKind, ih]
      | none => simp [actionHardFails, htg]
      | bool b => simp [actionHardFails, htg]
      | int n => simp [actionHardFails, htg]
      | list xs => simp [actionHardFails, htg]
      | dict fs => simp [actionHardFails, htg]
    | none => simp [runActions, actionHardFails]
    | bool b => simp [runActions, actionHardFails]
    | int n => simp [runActions, actionHardFails]
    | str s => simp [runActions, actionHardFails]
    | list xs => simp [runActions, actionHardFails]

lemma resolveUploadPath_absolute (cwd p : String) (h : strStartsWith cwd "/" = true) :
    strStartsWith (resolveUploadPath cwd p) "/" = true := by
  unfold resolveUploadPath
  by_cases hp : strStartsWith p "/"
  · simp [hp]
  · simp only [hp, Bool.false_eq_true, if_false]
    unfold strStartsWith at h ⊢
    rw [String.data_append, String.data_append]
    cases hc : cwd.data with
    | nil => rw [hc] at h; exact absurd h (by decide)
    | cons c cs =>
        rw [hc] at h
        simp only [charsStartWith, show ("/" : String).data = [Char.ofNat 47] from rfl,
          Bool.and_eq_true] at h ⊢
        exact ⟨h.1, trivial⟩

/-- C5 (corrected: the counterexample below shows further hard-failing
shapes — a non-dict action and a missing/non-string target name — beyond
the upload kind, and the batch-level `except` also fails the batch when an
element interaction raises): for a non-empty batch with a resolved element
table, the aggregate boolean is true iff no action hard-fails, where hard
failure is an upload (with resolvable string target) whose path list
resolves empty or contains a missing file, an element interaction (fill /
click with its forced retry / press / `set_input_files`) that raises, a
non-dict action, or a missing/non-string `target_element_name`; a resolver
failure fails the batch; a raising fill aborts the batch with no effect; a
target absent from the table and an unknown action kind are soft-skipped
with no effect; an upload with an existing (relative) path whose attach
call does not raise succeeds and records the absolute resolved path. -/
theorem c5_action_batch_aggregate :
    (∀ (env : BrowserEnv) (q : String) (acts : List PyVal)
        (table : String → Option Unit),
      env.queryElements q = some table → acts ≠ [] →
      ((executeActions env q acts).1 = true ↔
        ∀ a ∈ acts, actionHardFails env table a = false)) ∧
    (∀ (env : BrowserEnv) (q : String) (acts : List PyVal),
      env.queryElements q = Option.none → acts ≠ [] →
      (executeActions env q acts).1 = false) ∧
    (∀ (env : BrowserEnv) (q : String) (table : String → Option Unit)
        (es : PyDict) (tname : String),
      env.queryElements q = some table →
      dictGet es "target_element_name" .none = .str tname →
      table tname = Option.none →
      executeActions env q [.dict es] = (true, [])) ∧
    (∀ (env : BrowserEnv) (q : String) (table : String → Option Unit)
        (es : PyDict) (tname : String),
      env.queryElements q = some table →
      dictGet es "target_element_name" .none = .str tname →
      table tname = some () →
      pyEqStr (dictGet es "type" .none) "fill" = false →
      pyEqStr (dictGet es "type" .none) "click" = false →
      pyEqStr (dictGet es "type" .none) "press" = false →
      uploadKind (dictGet es "type" .none) = false →
      executeActions env q [.dict es] = (true, [])) ∧
    (∀ (env : BrowserEnv) (q : String) (table : String → Option Unit)
        (es : PyDict) (tname : String),
      env.queryElements q = some table →
      dictGet es "target_element_name" .none = .str tname →
      table tname = some () →
      dictGet es "type" .none = .str "fill" →
      env.fillRaises tname (dictGet es "value" (.str "")) = true →
      executeActions env q [.dict es] = (false, [])) ∧
    (∀ (env : BrowserEnv) (q : String) (table : String → Option Unit)
        (tname p : String),
      env.queryElements q = some table →
      table tname = some () →
      env.fsExists (resolveUploadPath env.cwd p) = true →
      env.uploadRaises tname [resolveUploadPath env.cwd p] = false →
      executeActions env q
        [.dict [(.str "type", .str "upload"),
                (.str "target_element_name", .str tname),
                (.str "value", .str p)]] =
        (true, [ActEffect.upload tname [resolveUploadPath env.cwd p]])) ∧
    (∀ cwd p : String, strStartsWith cwd "/" = true →
      strStartsWith (resolveUploadPath cwd p) "/" = true) := by
  refine ⟨?_, ?_, ?_, ?_, ?_, ?_, resolveUploadPath_absolute⟩
  · intro env q acts table hq hne
    cases acts with
    | nil => exact absurd rfl hne
    | cons a rest =>
        unfold executeActions
        rw [hq]
        simpa using runActions_true_iff env table (a :: rest) []
  · intro env q acts hq hne
    cases acts with
    | nil => exact absurd rfl hne
    | cons a rest =>
        unfold executeActions
        rw [hq]
        simp
  · intro env q table es tname hq htg htab
    unfold executeActions
    rw [hq]
    simp [runActions, htg, htab]
  · intro env q table es tname hq htg htab h1 h2 h3 h4
    simp only [uploadKind, Bool.or_eq_false_iff] at h4
    unfold executeActions
    rw [hq]
    simp [runActions, htg, htab, h1, h2, h3, h4.1.1, h4.1.2, h4.2]
  · intro env q table es tname hq htg htab htype hraise
    unfold executeActions
    rw [hq]
    simp [runActions, htg, htab, htype, pyEqStr, hraise]
  · intro env q table tname p hq htab hfs hraise
    unfold executeActions
    rw [hq]
    simp [runActions, dictGet, pyEqStr, htab, uploadKind, uploadPathsOf, resolveUploads,
      hfs, hraise]

/-- A page where every query resolves and every element is found, no
interaction raises, but no file exists. -/
def fillNoTargetEnv : BrowserEnv :=
  ⟨"/work", fun _ => false, fun _ => some (fun _ => some ()),
   fun _ _ => false, fun _ => false, fun _ => false, fun _ _ => false⟩

/-- C5, counterexample to "upload path-not-found is the one hard-failing
action kind": a batch containing a single `fill` action with no
`target_element_name` key returns `false` (the `getattr` call raises and the
batch-level `except` returns `False`) although the batch contains no upload
action at all. -/
theorem c5_counterexample :
    (executeActions fillNoTargetEnv "\x7b f \x7d"
      [PyVal.dict [(.str "type", .str "fill")]]).1 = false ∧
    uploadKind (.str "fill") = false := by
  constructor <;> rfl

/-- A page where every query resolves, every element is found, every file
exists, and no interaction raises. -/
def uploadOkEnv : BrowserEnv :=
  ⟨"/work", fun _ => true, fun _ => some (fun _ => some ()),
   fun _ _ => false, fun _ => false, fun _ => false, fun _ _ => false⟩

/-- C5 witness: an upload action with the existing relative path
`assets/logo.png` succeeds and records the absolute path
`/work/assets/logo.png`. -/
theorem c5_action_batch_aggregate_witness :
    executeActions uploadOkEnv "\x7b logo_input \x7d"
      [PyVal.dict [(.str "type", .str "upload"),
                   (.str "target_element_name", .str "logo_input"),
                   (.str "value", .str "assets/logo.png")]] =
      (true, [ActEffect.upload "logo_input" ["/work/assets/logo.png"]]) ∧
    strStartsWith "/work/assets/logo.png" "/" = true := by
  constructor
  · have h := c5_action_batch_aggregate.2.2.2.2.2.1 uploadOkEnv "\x7b logo_input \x7d"
      (fun _ => some ()) "logo_input" "assets/logo.png" rfl rfl rfl rfl
    exact h
  · have h := c5_action_batch_aggregate.2.2.2.2.2.2 "/work" "assets/logo.png" rfl
    exact h

/-! ## Claims C1, C2, C10: the attempt runner -/

lemma attemptLoop_capture_raise (env : AttemptEnv) (a : Attempt) (history : List PyVal)
    (logs : List ActionLog) (stepNumber fuel : Nat) (e : String)
    (hcap : env.capture (stepNumber + 1) = .error e) :
    attemptLoop env a history logs stepNumber (fuel + 1) =
      ⟨{a with status := .FAILED, completedAt := true, errorMessage := some e},
       logs, .ok false⟩ := by
  unfold attemptLoop
  simp only [hcap]

/-- C1 (corrected: a `FAILED` decision ends the loop at once, it does not
continue): when the decision at the first step carries status `FAILED`, the
runner records the failure reason (the decision's `thought`) on that step's
ActionLog with `success = False`, exits the loop, and marks the attempt
`FAILED` with an error citing 1 step — a single ActionLog row, not 15. -/
theorem c1_failed_decision_terminates (env : AttemptEnv) (a : Attempt) (d : Directory)
    (path : String)
    (hdir : env.dirs a.directoryId = some d)
    (hgoto : env.gotoResult d.submissionUrl = .ok ())
    (hcap : env.capture 1 = .ok path)
    (hstat : dictGet (env.llm 1) "status" (.str "FAILED") = .str "FAILED") :
    executeAttempt env a =
      ⟨{a with status := .FAILED, startedAt := true, completedAt := true,
               errorMessage := some "Failed after 1 steps"},
       [⟨1, path,
         dictGet (env.llm 1) "thought" .none,
         dictGet (env.llm 1) "workflow_state" .none,
         dictGet (env.llm 1) "agentql_query" .none,
         normalizeActions env.loads (dictGet (env.llm 1) "actions" (.list [])),
         false,
         dictGet (env.llm 1) "thought" .none⟩],
       .ok false⟩ := by
  unfold executeAttempt
  rw [hdir]
  simp only [browserNavigate, hgoto, MAX_ITERATIONS_PER_ATTEMPT]
  rw [show (15 : Nat) = 14 + 1 from rfl]
  unfold attemptLoop
  simp only [hcap, hstat]
  simp [pyEqStr, attemptFailedExit]
  decide

/-- An attempt environment in which the model reports `FAILED` at every
step. -/
def failLoopEnv : AttemptEnv where
  dirs := fun _ => some ⟨"DirOne", "https://dir.example/submit"⟩
  gotoResult := fun _ => .ok ()
  settleTimeout := false
  loads := fun _ => Option.none
  capture := fun n => .ok ("shot_" ++ toString n ++ ".png")
  llm := fun _ => [(.str "status", .str "FAILED"), (.str "thought", .str "cannot find the form")]
  browser := fun _ => uploadOkEnv

/-- A fresh attempt row for directory 1. -/
def freshAttempt : Attempt := ⟨1, .NOT_STARTED, false, false, Option.none⟩

/-- C1, counterexample to the claim as stated: with `FAILED` received at
every step, the attempt ends after one step with one ActionLog row (not 15)
and the error message cites 1 step (not 15). -/
theorem c1_counterexample :
    (executeAttempt failLoopEnv freshAttempt).logs.length = 1 ∧
    (executeAttempt failLoopEnv freshAttempt).logs.length ≠ 15 ∧
    (executeAttempt failLoopEnv freshAttempt).attempt.errorMessage =
      some "Failed after 1 steps" ∧
    (executeAttempt failLoopEnv freshAttempt).attempt.status = .FAILED := by
  have h : (executeAttempt failLoopEnv freshAttempt).logs.length = 1 := rfl
  exact ⟨h, by rw [h]; decide, rfl, rfl⟩

/-- C1 witness: `c1_failed_decision_terminates` on the concrete all-FAILED
environment. -/
theorem c1_failed_decision_terminates_witness :
    executeAttempt failLoopEnv freshAttempt =
      ⟨{freshAttempt with status := .FAILED, startedAt := true, completedAt := true,
                          errorMessage := some "Failed after 1 steps"},
       [⟨1, "shot_1.png", .str "cannot find the form", .none, .none, [], false,
         .str "cannot find the form"⟩],
       .ok false⟩ := by
  have h := c1_failed_decision_terminates failLoopEnv freshAttempt
    ⟨"DirOne", "https://dir.example/submit"⟩ "shot_1.png" rfl rfl rfl rfl
  exact h

/-- C2 (corrected: an exception raised by the initial navigation is *not*
caught at the attempt boundary — it escapes `_execute_attempt`, and the job
loop converts it into a job-level `FAILED`, see the counterexample): an
exception raised inside the step loop (modelled by the screenshot capture,
the loop's raising operation) is caught at the attempt boundary — the
attempt is marked `FAILED` with the exception text and the method returns
`False` normally, so sibling attempts still run; an exception from
`page.goto` escapes with the attempt left `IN_PROGRESS` and no
`error_message`, and the job loop then marks the whole job `FAILED`; the
network-idle settle timeout does not change the navigation outcome. -/
theorem c2_attempt_boundary :
    (∀ (env : AttemptEnv) (a : Attempt) (d : Directory) (e : String),
      env.dirs a.directoryId = some d →
      env.gotoResult d.submissionUrl = .ok () →
      env.capture 1 = .error e →
      executeAttempt env a =
        ⟨{a with status := .FAILED, startedAt := true, completedAt := true,
                 errorMessage := some e}, [], .ok false⟩) ∧
    (∀ (env : AttemptEnv) (a : Attempt) (history : List PyVal)
        (logs : List ActionLog) (stepNumber fuel : Nat) (e : String),
      env.capture (stepNumber + 1) = .error e →
      attemptLoop env a history logs stepNumber (fuel + 1) =
        ⟨{a with status := .FAILED, completedAt := true, errorMessage := some e},
         logs, .ok false⟩) ∧
    (∀ (env : AttemptEnv) (a : Attempt) (d : Directory) (e : String),
      env.dirs a.directoryId = some d →
      env.gotoResult d.submissionUrl = .error e →
      executeAttempt env a =
        ⟨{a with status := .IN_PROGRESS, startedAt := true}, [], .error e⟩) ∧
    (∀ (env : JobEnv) (job : Job) (i : Nat) (done : List Attempt)
        (trace : List Job) (a : Attempt) (rest : List Attempt) (e : String),
      ¬((env.refresh i).getD job.status = .PAUSED ∨
        (env.refresh i).getD job.status = .FAILED) →
      (executeAttempt (env.attemptEnv i) a).outcome = .error e →
      jobLoop env job i done trace (a :: rest) =
        ⟨{job with status := .FAILED, completedAt := true},
         done ++ (executeAttempt (env.attemptEnv i) a).attempt :: rest, i + 1,
         trace ++ [{job with status := .FAILED, completedAt := true}], false⟩) ∧
    (∀ (g : Except String Unit) (st : Bool),
      (browserNavigate g st).outcome = (browserNavigate g false).outcome) := by
  refine ⟨?_, ?_, ?_, ?_, ?_⟩
  · intro env a d e hdir hgoto hcap
    unfold executeAttempt
    rw [hdir]
    simp only [browserNavigate, hgoto, MAX_ITERATIONS_PER_ATTEMPT]
    rw [show (15 : Nat) = 14 + 1 from rfl]
    exact attemptLoop_capture_raise env _ [] [] 0 14 e hcap
  · exact fun env a history logs stepNumber fuel e hcap =>
      attemptLoop_capture_raise env a history logs stepNumber fuel e hcap
  · intro env a d e hdir hgoto
    unfold executeAttempt
    rw [hdir]
    simp only [browserNavigate, hgoto]
  · intro env job i done trace a rest e hst hout
    unfold jobLoop
    rw [if_neg hst]
    simp only [hout]
  · intro g st
    cases g <;> rfl

/-- An attempt environment whose directory URL does not resolve: `page.goto`
raises. -/
def navFailEnv : AttemptEnv where
  dirs := fun _ => some ⟨"DirOne", "https://dir.example/submit"⟩
  gotoResult := fun _ => .error "Page.goto: net::ERR_NAME_NOT_RESOLVED"
  settleTimeout := false
  loads := fun _ => Option.none
  capture := fun n => .ok ("shot_" ++ toString n ++ ".png")
  llm := fun _ => [(.str "status", .str "DONE")]
  browser := fun _ => uploadOkEnv

/-- An attempt environment where the model immediately reports `DONE`. -/
def doneEnv : AttemptEnv where
  dirs := fun _ => some ⟨"DirTwo", "https://two.example/submit"⟩
  gotoResult := fun _ => .ok ()
  settleTimeout := false
  loads := fun _ => Option.none
  capture := fun n => .ok ("shot_" ++ toString n ++ ".png")
  llm := fun _ => [(.str "status", .str "DONE"), (.str "thought", .str "submitted")]
  browser := fun _ => uploadOkEnv

/-- A job run whose first attempt hits the navigation failure and whose
second would succeed. -/
def navFailJobEnv : JobEnv where
  productFound := true
  browserStartOk := true
  attemptEnv := fun i => if i = 0 then navFailEnv else doneEnv
  refresh := fun _ => Option.none
  finalRefresh := Option.none

/-- A freshly created job over two directories. -/
def freshJob2 : Job := ⟨.NOT_STARTED, 2, 0, 0, false, false⟩

/-- A fresh attempt row for directory 2. -/
def freshAttempt2 : Attempt := ⟨2, .NOT_STARTED, false, false, Option.none⟩

/-- C2, counterexample to the claim as stated: a navigation failure on
attempt 1 is *not* caught at the attempt boundary — the attempt stays
`IN_PROGRESS` with no stored error, the exception escapes, the job is
marked `FAILED`, and the sibling attempt 2 is never dispatched. -/
theorem c2_counterexample :
    (executeAttempt navFailEnv freshAttempt).outcome =
      .error "Page.goto: net::ERR_NAME_NOT_RESOLVED" ∧
    (executeAttempt navFailEnv freshAttempt).attempt.status = .IN_PROGRESS ∧
    (executeAttempt navFailEnv freshAttempt).attempt.errorMessage = Option.none ∧
    (executeJob navFailJobEnv freshJob2 [freshAttempt, freshAttempt2]).job.status =
      .FAILED ∧
    (executeJob navFailJobEnv freshJob2 [freshAttempt, freshAttempt2]).attempts.getD 1
      freshAttempt2 = freshAttempt2 ∧
    (executeJob navFailJobEnv freshJob2 [freshAttempt, freshAttempt2]).returned = false := by
  exact ⟨rfl, rfl, rfl, rfl, rfl, rfl⟩

/-- An attempt environment whose screenshot capture raises at every step. -/
def capFailEnv : AttemptEnv where
  dirs := fun _ => some ⟨"DirOne", "https://dir.example/submit"⟩
  gotoResult := fun _ => .ok ()
  settleTimeout := false
  loads := fun _ => Option.none
  capture := fun _ => .error "Page.screenshot: Timeout 30000ms exceeded"
  llm := fun _ => [(.str "status", .str "DONE")]
  browser := fun _ => uploadOkEnv

/-- C2 witness: `c2_attempt_boundary` at concrete inputs — the in-loop
screenshot exception is stored on the attempt and returned as a normal
`False`, and the navigation exception escapes. -/
theorem c2_attempt_boundary_witness :
    executeAttempt capFailEnv freshAttempt =
      ⟨{freshAttempt with status := .FAILED, startedAt := true, completedAt := true,
                          errorMessage := some "Page.screenshot: Timeout 30000ms exceeded"},
       [], .ok false⟩ ∧
    executeAttempt navFailEnv freshAttempt =
      ⟨{freshAttempt with status := .IN_PROGRESS, startedAt := true}, [],
       .error "Page.goto: net::ERR_NAME_NOT_RESOLVED"⟩ := by
  exact ⟨c2_attempt_boundary.1 capFailEnv freshAttempt
      ⟨"DirOne", "https://dir.example/submit"⟩
      "Page.screenshot: Timeout 30000ms exceeded" rfl rfl rfl,
    c2_attempt_boundary.2.2.1 navFailEnv freshAttempt
      ⟨"DirOne", "https://dir.example/submit"⟩
      "Page.goto: net::ERR_NAME_NOT_RESOLVED" rfl rfl⟩

lemma executeAttempt_dir_missing (env : AttemptEnv) (a : Attempt)
    (h : env.dirs a.directoryId = Option.none) :
    executeAttempt env a = ⟨a, [], .ok false⟩ := by
  unfold executeAttempt
  rw [h]

/-- C10 (confirmed): when the attempt's directory row is missing,
`_execute_attempt` returns `False` with the attempt record completely
untouched (status, timestamps and error message unchanged), yet the job run
still increments `failed_count` for it — a failure leaving no per-attempt
trace. -/
theorem c10_missing_directory_silent_failure :
    (∀ (env : AttemptEnv) (a : Attempt),
      env.dirs a.directoryId = Option.none →
      executeAttempt env a = ⟨a, [], .ok false⟩) ∧
    (∀ (env : JobEnv) (job : Job) (a : Attempt),
      job.status = .NOT_STARTED →
      env.productFound = true →
      env.browserStartOk = true →
      env.refresh 0 = Option.none →
      env.finalRefresh = Option.none →
      (env.attemptEnv 0).dirs a.directoryId = Option.none →
      (executeJob env job [a]).job.failedCount = job.failedCount + 1 ∧
      (executeJob env job [a]).job.completedCount = job.completedCount ∧
      (executeJob env job [a]).attempts = [a]) := by
  refine ⟨executeAttempt_dir_missing, ?_⟩
  intro env job a hstatus hprod hbrowser hrefresh hfinal hdirs
  have hA := executeAttempt_dir_missing (env.attemptEnv 0) a hdirs
  unfold executeJob
  rw [hstatus, hprod, hbrowser]
  rw [if_neg (by decide), if_neg (by decide)]
  rw [if_neg (by decide)]
  unfold jobLoop
  rw [hrefresh]
  simp only [Option.getD_none, hA]
  rw [if_neg (by decide)]
  unfold jobLoop jobFinish
  rw [hfinal]
  simp only [Option.getD_none]
  split_ifs <;> simp_all

/-- A job run whose only attempt references a directory that no longer
exists. -/
def missingDirJobEnv : JobEnv where
  productFound := true
  browserStartOk := true
  attemptEnv := fun _ =>
    { dirs := fun _ => Option.none
      gotoResult := fun _ => .ok ()
      settleTimeout := false
      loads := fun _ => Option.none
      capture := fun n => .ok ("shot_" ++ toString n ++ ".png")
      llm := fun _ => [(.str "status", .str "DONE")]
      browser := fun _ => uploadOkEnv }
  refresh := fun _ => Option.none
  finalRefresh := Option.none

/-- A freshly created job over one directory. -/
def freshJob1 : Job := ⟨.NOT_STARTED, 1, 0, 0, false, false⟩

/-- C10 witness: `c10_missing_directory_silent_failure` on a concrete run —
the attempt record stays `NOT_STARTED` with nothing set, while the job's
`failed_count` becomes 1. -/
theorem c10_missing_directory_silent_failure_witness :
    executeAttempt (missingDirJobEnv.attemptEnv 0) freshAttempt =
      ⟨freshAttempt, [], .ok false⟩ ∧
    (executeJob missingDirJobEnv freshJob1 [freshAttempt]).job.failedCount = 1 ∧
    (executeJob missingDirJobEnv freshJob1 [freshAttempt]).attempts = [freshAttempt] := by
  refine ⟨c10_missing_directory_silent_failure.1 (missingDirJobEnv.attemptEnv 0)
    freshAttempt rfl, ?_, ?_⟩
  · exact (c10_missing_directory_silent_failure.2 missingDirJobEnv freshJob1 freshAttempt
      rfl rfl rfl rfl rfl rfl).1
  · exact (c10_missing_directory_silent_failure.2 missingDirJobEnv freshJob1 freshAttempt
      rfl rfl rfl rfl rfl rfl).2.2

/-! ## Claims C3 and C4: the job coordinator -/

/-- The per-state facts carried along a run: counters within bounds and not
yet `COMPLETED`. -/
def JobOk (s : Job) : Prop :=
  s.completedCount + s.failedCount ≤ s.totalDirectories ∧ s.status ≠ .COMPLETED

lemma jobFinish_invariant (env : JobEnv) (job : Job) (attempts : List Attempt)
    (processed : Nat) (trace : List Job)
    (hcnt : job.completedCount + job.failedCount ≤ job.totalDirectories)
    (hjob : job.status ≠ .COMPLETED)
    (hfin : env.finalRefresh = Option.none ∨ env.finalRefresh = some .PAUSED ∨
      env.finalRefresh = some .FAILED)
    (htr : ∀ s ∈ trace, JobOk s) :
    (∀ s ∈ (jobFinish env job attempts processed trace).trace,
       s.completedCount + s.failedCount ≤ s.totalDirectories) ∧
    (jobFinish env job attempts processed trace).job.completedCount +
        (jobFinish env job attempts processed trace).job.failedCount ≤
      (jobFinish env job attempts processed trace).job.totalDirectories ∧
    (∀ s ∈ (jobFinish env job attempts processed trace).trace.dropLast,
       s.status ≠ .COMPLETED) ∧
    ((jobFinish env job attempts processed trace).job.status = .COMPLETED →
      (jobFinish env job attempts processed trace).job.completedCount +
          (jobFinish env job attempts processed trace).job.failedCount =
        (jobFinish env job attempts processed trace).job.totalDirectories) := by
  simp only [jobFinish]
  have hst : (env.finalRefresh.getD job.status) ≠ .COMPLETED := by
    rcases hfin with h | h | h <;> simp [h, hjob]
  split_ifs with hcond
  · refine ⟨?_, by simpa using hcnt, ?_, fun _ => ?_⟩
    · intro s hs
      rcases List.mem_append.mp hs with hs | hs
      · exact (htr s hs).1
      · simp only [List.mem_singleton] at hs
        subst hs
        simpa using hcnt
    · intro s hs
      rw [List.dropLast_concat] at hs
      exact (htr s hs).2
    · simp only []
      exact le_antisymm hcnt (by simpa using hcond.2)
  · refine ⟨fun s hs => (htr s hs).1, by simpa using hcnt, ?_, fun hc => ?_⟩
    · intro s hs
      exact (htr s (List.dropLast_subset _ hs)).2
    · exact absurd hc hst

lemma jobLoop_invariant (env : JobEnv)
    (hrf : ∀ k, env.refresh k = Option.none ∨ env.refresh k = some .PAUSED ∨
      env.refresh k = some .FAILED)
    (hfin : env.finalRefresh = Option.none ∨ env.finalRefresh = some .PAUSED ∨
      env.finalRefresh = some .FAILED) :
    ∀ (pending : List Attempt) (job : Job) (i : Nat) (done : List Attempt)
      (trace : List Job),
      job.completedCount + job.failedCount + pending.length ≤ job.totalDirectories →
      job.status ≠ .COMPLETED →
      (∀ s ∈ trace, JobOk s) →
      (∀ s ∈ (jobLoop env job i done trace pending).trace,
         s.completedCount + s.failedCount ≤ s.totalDirectories) ∧
      (jobLoop env job i done trace pending).job.completedCount +
          (jobLoop env job i done trace pending).job.failedCount ≤
        (jobLoop env job i done trace pending).job.totalDirectories ∧
      (∀ s ∈ (jobLoop env job i done trace pending).trace.dropLast,
         s.status ≠ .COMPLETED) ∧
      ((jobLoop env job i done trace pending).job.status = .COMPLETED →
        (jobLoop env job i done trace pending).job.completedCount +
            (jobLoop env job i done trace pending).job.failedCount =
          (jobLoop env job i done trace pending).job.totalDirectories) := by
  intro pending
  induction pending with
  | nil =>
      intro job i done trace hcnt hjob htr
      simp only [List.length_nil, Nat.add_zero] at hcnt
      exact jobFinish_invariant env job done i trace hcnt hjob hfin htr
  | cons a rest ih =>
      intro job i done trace hcnt hjob htr
      simp only [jobLoop]
      have hst : (env.refresh i).getD job.status ≠ .COMPLETED := by
        rcases hrf i with h | h | h <;> simp [h, hjob]
      have hcnt1 : job.completedCount + job.failedCount ≤ job.totalDirectories := by
        simp only [List.length_cons] at hcnt
        omega
      split_ifs with hpause
      · exact jobFinish_invariant env _ (done ++ a :: rest) i trace hcnt1 hst hfin htr
      · cases hout : (executeAttempt (env.attemptEnv i) a).outcome with
        | error e =>
            refine ⟨?_, by simpa using hcnt1, ?_, fun hc => by simp at hc⟩
            · intro s hs
              rcases List.mem_append.mp hs with hs | hs
              · exact (htr s hs).1
              · simp only [List.mem_singleton] at hs
                subst hs
                simpa using hcnt1
            · intro s hs
              rw [List.dropLast_concat] at hs
              exact (htr s hs).2
        | ok success =>
            simp only [List.length_cons] at hcnt
            cases success with
            | true =>
                refine ih _ (i + 1) (done ++ [(executeAttempt (env.attemptEnv i) a).attempt])
                  (trace ++ [_]) ?_ ?_ ?_
                · show job.completedCount + 1 + job.failedCount + rest.length ≤
                    job.totalDirectories
                  omega
                · exact hst
                · intro s hs
                  rcases List.mem_append.mp hs with hs | hs
                  · exact htr s hs
                  · simp only [List.mem_singleton] at hs
                    subst hs
                    exact ⟨by show job.completedCount + 1 + job.failedCount ≤
                      job.totalDirectories; omega, hst⟩
            | false =>
                refine ih _ (i + 1) (done ++ [(executeAttempt (env.attemptEnv i) a).attempt])
                  (trace ++ [_]) ?_ ?_ ?_
                · show job.completedCount + (job.failedCount + 1) + rest.length ≤
                    job.totalDirectories
                  omega
                · exact hst
                · intro s hs
                  rcases List.mem_append.mp hs with hs | hs
                  · exact htr s hs
                  · simp only [List.mem_singleton] at hs
                    subst hs
                    exact ⟨by show job.completedCount + (job.failedCount + 1) ≤
                      job.totalDirectories; omega, hst⟩

lemma jobLoop_completes (env : JobEnv)
    (hrf : ∀ k, env.refresh k = Option.none)
    (hfin : env.finalRefresh = Option.none)
    (hok : ∀ (i : Nat) (a : Attempt),
      ∃ b, (executeAttempt (env.attemptEnv i) a).outcome = .ok b) :
    ∀ (pending : List Attempt) (job : Job) (i : Nat) (done : List Attempt)
      (trace : List Job),
      job.status = .IN_PROGRESS →
      job.completedCount + job.failedCount + pending.length = job.totalDirectories →
      (jobLoop env job i done trace pending).job.status = .COMPLETED ∧
      (jobLoop env job i done trace pending).job.completedCount +
          (jobLoop env job i done trace pending).job.failedCount =
        (jobLoop env job i done trace pending).job.totalDirectories := by
  intro pending
  induction pending with
  | nil =>
      intro job i done trace hstat hcnt
      simp only [List.length_nil, Nat.add_zero] at hcnt
      simp only [jobLoop, jobFinish, hfin, Option.getD_none, hstat]
      rw [if_pos ⟨trivial, le_of_eq hcnt.symm⟩]
      exact ⟨rfl, hcnt⟩
  | cons a rest ih =>
      intro job i done trace hstat hcnt
      simp only [List.length_cons] at hcnt
      simp only [jobLoop, hrf i, Option.getD_none, hstat]
      rw [if_neg (by decide)]
      obtain ⟨b, hb⟩ := hok i a
      rw [hb]
      cases b with
      | true =>
          refine ih _ (i + 1) (done ++ [(executeAttempt (env.attemptEnv i) a).attempt])
            (trace ++ [_]) ?_ ?_
          · rfl
          · show job.completedCount + 1 + job.failedCount + rest.length =
              job.totalDirectories
            omega
      | false =>
          refine ih _ (i + 1) (done ++ [(executeAttempt (env.attemptEnv i) a).attempt])
            (trace ++ [_]) ?_ ?_
          · rfl
          · show job.completedCount + (job.failedCount + 1) + rest.length =
              job.totalDirectories
            omega

/-- C3 (confirmed): `create_job` initialises both counters to 0 and
`total_directories` to the number of attempts it creates (all
`NOT_STARTED`); along any `execute_job` run whose external status flips are
operator signals (`PAUSED`/`FAILED`), every committed job state satisfies
`completed_count + failed_count ≤ total_directories` (each concluded attempt
increments exactly one of the two); no state before the final one is
`COMPLETED`, a final `COMPLETED` state forces equality of the sum with the
total, and when every attempt concludes normally with no external flip the
job does transition to `COMPLETED`. -/
theorem c3_counter_invariant :
    (∀ ids : List Nat,
      (createJob ids).1.completedCount = 0 ∧ (createJob ids).1.failedCount = 0 ∧
      (createJob ids).1.totalDirectories = (createJob ids).2.length ∧
      ∀ a ∈ (createJob ids).2, a.status = .NOT_STARTED) ∧
    (∀ (env : JobEnv) (job : Job) (attempts : List Attempt),
      job.completedCount = 0 → job.failedCount = 0 →
      job.totalDirectories = attempts.length →
      job.status = .NOT_STARTED →
      (∀ k, env.refresh k = Option.none ∨ env.refresh k = some .PAUSED ∨
        env.refresh k = some .FAILED) →
      (env.finalRefresh = Option.none ∨ env.finalRefresh = some .PAUSED ∨
        env.finalRefresh = some .FAILED) →
      (∀ s ∈ (executeJob env job attempts).trace,
         s.completedCount + s.failedCount ≤ s.totalDirectories) ∧
      (executeJob env job attempts).job.completedCount +
          (executeJob env job attempts).job.failedCount ≤
        (executeJob env job attempts).job.totalDirectories ∧
      (∀ s ∈ (executeJob env job attempts).trace.dropLast,
         s.status ≠ .COMPLETED) ∧
      ((executeJob env job attempts).job.status = .COMPLETED →
        (executeJob env job attempts).job.completedCount +
            (executeJob env job attempts).job.failedCount =
          (executeJob env job attempts).job.totalDirectories)) ∧
    (∀ (env : JobEnv) (job : Job) (attempts : List Attempt),
      job.completedCount = 0 → job.failedCount = 0 →
      job.totalDirectories = attempts.length →
      job.status = .NOT_STARTED →
      (∀ k, env.refresh k = Option.none) →
      env.finalRefresh = Option.none →
      env.productFound = true → env.browserStartOk = true →
      (∀ (i : Nat) (a : Attempt),
        ∃ b, (executeAttempt (env.attemptEnv i) a).outcome = .ok b) →
      (executeJob env job attempts).job.status = .COMPLETED) := by
  refine ⟨?_, ?_, ?_⟩
  · intro ids
    refine ⟨rfl, rfl, ?_, ?_⟩
    · show ids.length = (ids.map _).length
      rw [List.length_map]
    · intro a ha
      simp only [createJob, List.mem_map] at ha
      obtain ⟨d, hd, rfl⟩ := ha
      rfl
  · intro env job attempts hc hf htot hstat hrf hfin
    unfold executeJob
    rw [hstat]
    rw [if_neg (by decide)]
    cases hprod : env.productFound with
    | false =>
        rw [if_pos (by simp [hprod])]
        refine ⟨by simp, by simp [hc, hf], by simp, fun hcc => ?_⟩
        rw [hstat] at hcc
        exact absurd hcc (by decide)
    | true =>
        rw [if_neg (by simp [hprod])]
        cases hbr : env.browserStartOk with
        | false =>
            rw [if_pos (by simp [hbr])]
            refine ⟨?_, by simp [hc, hf], ?_, fun hcc => by simp at hcc⟩
            · intro s hs
              simp only [List.mem_cons, List.not_mem_nil, or_false] at hs
              rcases hs with rfl | rfl <;> simp [hc, hf]
            · intro s hs
              simp only [List.dropLast, List.mem_singleton] at hs
              subst hs
              simp
        | true =>
            rw [if_neg (by simp [hbr])]
            refine jobLoop_invariant env hrf hfin attempts _ 0 [] _ ?_ (by simp) ?_
            · show job.completedCount + job.failedCount + attempts.length ≤
                job.totalDirectories
              omega
            · intro s hs
              simp only [List.mem_singleton] at hs
              subst hs
              exact ⟨by show job.completedCount + job.failedCount ≤ job.totalDirectories; omega,
                by simp⟩
  · intro env job attempts hc hf htot hstat hrf hfin hprod hbr hok
    unfold executeJob
    rw [hstat, hprod, hbr]
    rw [if_neg (by decide), if_neg (by decide), if_neg (by decide)]
    exact (jobLoop_completes env hrf hfin hok attempts _ 0 [] _ (by simp)
      (by show job.completedCount + job.failedCount + attempts.length =
            job.totalDirectories; omega)).1

/-- A job run whose every attempt immediately succeeds and which receives no
external signal. -/
def doneJobEnv : JobEnv where
  productFound := true
  browserStartOk := true
  attemptEnv := fun _ => doneEnv
  refresh := fun _ => Option.none
  finalRefresh := Option.none

/-- C3 witness: `c3_counter_invariant` on a concrete two-directory job whose
attempts both succeed — the invariant holds and the job completes. -/
theorem c3_counter_invariant_witness :
    (createJob [1, 2]).1.totalDirectories = 2 ∧
    (executeJob doneJobEnv freshJob2 [freshAttempt, freshAttempt2]).job.completedCount +
        (executeJob doneJobEnv freshJob2 [freshAttempt, freshAttempt2]).job.failedCount ≤
      (executeJob doneJobEnv freshJob2 [freshAttempt, freshAttempt2]).job.totalDirectories ∧
    (executeJob doneJobEnv freshJob2 [freshAttempt, freshAttempt2]).job.status =
      .COMPLETED := by
  refine ⟨?_, ?_, ?_⟩
  · have h := (c3_counter_invariant.1 [1, 2]).2.2.1
    simpa using h
  · exact (c3_counter_invariant.2.1 doneJobEnv freshJob2 [freshAttempt, freshAttempt2]
      rfl rfl rfl rfl (fun k => Or.inl rfl) (Or.inl rfl)).2.1
  · exact c3_counter_invariant.2.2 doneJobEnv freshJob2 [freshAttempt, freshAttempt2]
      rfl rfl rfl rfl (fun k => rfl) rfl rfl rfl (fun i a => ⟨true, rfl⟩)

lemma jobLoop_pause (env : JobEnv) (k : Nat) (stop : JobStatus)
    (hstop : stop = .PAUSED ∨ stop = .FAILED)
    (hk : env.refresh k = some stop)
    (hfin : env.finalRefresh = Option.none)
    (hok : ∀ (i : Nat) (a : Attempt),
      ∃ b, (executeAttempt (env.attemptEnv i) a).outcome = .ok b) :
    ∀ (pending : List Attempt) (job : Job) (i : Nat) (done : List Attempt)
      (trace : List Job),
      job.status = .IN_PROGRESS →
      (∀ j, i ≤ j → j < k → env.refresh j = Option.none) →
      i ≤ k → k - i < pending.length →
      (jobLoop env job i done trace pending).processed = k ∧
      (jobLoop env job i done trace pending).job.status = stop ∧
      ∃ upd : List Attempt, upd.length = k - i ∧
        (jobLoop env job i done trace pending).attempts =
          done ++ upd ++ pending.drop (k - i) := by
  intro pending
  induction pending with
  | nil =>
      intro job i done trace hstat hnone hik hlen
      exact absurd hlen (by simp)
  | cons a rest ih =>
      intro job i done trace hstat hnone hik hlen
      rcases Nat.eq_or_lt_of_le hik with rfl | hik2
      · simp only [jobLoop, hk, Option.getD_some]
        rw [if_pos hstop]
        simp only [jobFinish, hfin, Option.getD_none]
        rw [if_neg (by rcases hstop with rfl | rfl <;> simp)]
        refine ⟨rfl, rfl, [], by simp, ?_⟩
        simp
      · have hrfi : env.refresh i = Option.none := hnone i le_rfl hik2
        simp only [jobLoop, hrfi, Option.getD_none, hstat]
        rw [if_neg (by decide)]
        obtain ⟨b, hb⟩ := hok i a
        rw [hb]
        have hrec : k - i = (k - (i + 1)) + 1 := by omega
        cases b with
        | true =>
            obtain ⟨h1, h2, upd, hlen2, heq⟩ :=
              ih ⟨.IN_PROGRESS, job.totalDirectories, job.completedCount + 1,
                  job.failedCount, job.startedAt, job.completedAt⟩ (i + 1)
                (done ++ [(executeAttempt (env.attemptEnv i) a).attempt])
                (trace ++ [_]) rfl (fun j hj1 hj2 => hnone j (by omega) hj2)
                (by omega) (by simp only [List.length_cons] at hlen; omega)
            refine ⟨h1, h2, (executeAttempt (env.attemptEnv i) a).attempt :: upd,
              ?_, ?_⟩
            · simp only [List.length_cons]
              omega
            · exact heq.trans (by rw [hrec, List.drop_succ_cons]; simp)
        | false =>
            obtain ⟨h1, h2, upd, hlen2, heq⟩ :=
              ih ⟨.IN_PROGRESS, job.totalDirectories, job.completedCount,
                  job.failedCount + 1, job.startedAt, job.completedAt⟩ (i + 1)
                (done ++ [(executeAttempt (env.attemptEnv i) a).attempt])
                (trace ++ [_]) rfl (fun j hj1 hj2 => hnone j (by omega) hj2)
                (by omega) (by simp only [List.length_cons] at hlen; omega)
            refine ⟨h1, h2, (executeAttempt (env.attemptEnv i) a).attempt :: upd,
              ?_, ?_⟩
            · simp only [List.length_cons]
              omega
            · exact heq.trans (by rw [hrec, List.drop_succ_cons]; simp)

/-- C4 (confirmed): the coordinator re-reads the job status before each
attempt (modelled by `refresh`); when the status read before attempt `k` is
an operator flip to `PAUSED` or `FAILED` (and no earlier read was flipped),
exactly `k` attempts are dispatched, the rows from index `k` on are exactly
the input rows (untouched, so still `NOT_STARTED` if they were), the job
keeps the flipped status and is not transitioned to `COMPLETED`. -/
theorem c4_pause_stops_dispatch (env : JobEnv) (job : Job) (attempts : List Attempt)
    (k : Nat) (stop : JobStatus)
    (hstat : job.status = .NOT_STARTED)
    (hprod : env.productFound = true)
    (hbr : env.browserStartOk = true)
    (hstop : stop = .PAUSED ∨ stop = .FAILED)
    (hk : env.refresh k = some stop)
    (hzero : ∀ j, j < k → env.refresh j = Option.none)
    (hfin : env.finalRefresh = Option.none)
    (hok : ∀ (i : Nat) (a : Attempt),
      ∃ b, (executeAttempt (env.attemptEnv i) a).outcome = .ok b)
    (hlen : k < attempts.length) :
    (executeJob env job attempts).processed = k ∧
    (executeJob env job attempts).job.status = stop ∧
    (executeJob env job attempts).job.status ≠ .COMPLETED ∧
    (executeJob env job attempts).attempts.drop k = attempts.drop k := by
  unfold executeJob
  rw [hstat, hprod, hbr]
  rw [if_neg (by decide), if_neg (by decide), if_neg (by decide)]
  obtain ⟨h1, h2, upd, hlen2, heq⟩ :=
    jobLoop_pause env k stop hstop hk hfin hok attempts
      ⟨.IN_PROGRESS, job.totalDirectories, job.completedCount, job.failedCount,
       true, job.completedAt⟩ 0 [] _ rfl
      (fun j hj1 hj2 => hzero j hj2) (Nat.zero_le k) (by simpa using hlen)
  refine ⟨h1, h2, ?_, ?_⟩
  · rw [h2]
    rcases hstop with rfl | rfl <;> decide
  · have hupd : upd.length = k := by omega
    have h3 := congrArg (List.drop k) heq
    refine h3.trans ?_
    rw [List.nil_append, Nat.sub_zero, ← hupd]
    exact List.drop_left upd (attempts.drop upd.length)

/-- A three-attempt job run in which an operator pauses the job after
attempt 1 concludes and before attempt 2 starts. -/
def pauseJobEnv : JobEnv where
  productFound := true
  browserStartOk := true
  attemptEnv := fun _ => doneEnv
  refresh := fun i => if i = 1 then some .PAUSED else Option.none
  finalRefresh := Option.none

/-- A fresh attempt row for directory 3. -/
def freshAttempt3 : Attempt := ⟨3, .NOT_STARTED, false, false, Option.none⟩

/-- A freshly created job over three directories. -/
def freshJob3 : Job := ⟨.NOT_STARTED, 3, 0, 0, false, false⟩

/-- C4 witness: `c4_pause_stops_dispatch` on the pause scenario — exactly
one attempt is processed, the job remains `PAUSED`, and attempts 2–3 keep
their untouched `NOT_STARTED` rows. -/
theorem c4_pause_stops_dispatch_witness :
    (executeJob pauseJobEnv freshJob3
      [freshAttempt, freshAttempt2, freshAttempt3]).processed = 1 ∧
    (executeJob pauseJobEnv freshJob3
      [freshAttempt, freshAttempt2, freshAttempt3]).job.status = .PAUSED ∧
    (executeJob pauseJobEnv freshJob3
      [freshAttempt, freshAttempt2, freshAttempt3]).attempts.drop 1 =
      [freshAttempt2, freshAttempt3] := by
  have h := c4_pause_stops_dispatch pauseJobEnv freshJob3
    [freshAttempt, freshAttempt2, freshAttempt3] 1 .PAUSED rfl rfl rfl (Or.inl rfl)
    rfl (fun j hj => by rw [Nat.lt_one_iff] at hj; subst hj; rfl) rfl
    (fun i a => ⟨true, rfl⟩) (by decide)
  exact ⟨h.1, h.2.1, h.2.2.2⟩

/-! ## Claim C7: the AgentQL rate limiter -/

lemma getD_drop (l : List ℚ) (n i : Nat) : (l.drop n).getD i 0 = l.getD (n + i) 0 := by
  simp [List.getD_eq_getElem?_getD, List.getElem?_drop]

lemma headD_eq_getD (l : List ℚ) : l.headD 0 = l.getD 0 0 := by
  cases l <;> rfl

lemma getD_append_lt (l₁ l₂ : List ℚ) (i : Nat) (h : i < l₁.length) :
    (l₁ ++ l₂).getD i 0 = l₁.getD i 0 := by
  simp [List.getD_eq_getElem?_getD, List.getElem?_append, h]

lemma getD_append_last (l : List ℚ) (r : ℚ) : (l ++ [r]).getD l.length 0 = r := by
  simp [List.getD_eq_getElem?_getD, List.getElem?_append_right (le_refl l.length)]

lemma pruneOld_suffix (now : ℚ) (q : List ℚ) :
    ∃ j, j ≤ q.length ∧ pruneOld now q = q.drop j ∧
      ∀ i, i < j → AGENTQL_RATE_WINDOW < now - q.getD i 0 := by
  induction q with
  | nil => exact ⟨0, by simp, rfl, fun i hi => absurd hi (by omega)⟩
  | cons t ts ih =>
      by_cases h : AGENTQL_RATE_WINDOW < now - t
      · obtain ⟨j, hj1, hj2, hj3⟩ := ih
        refine ⟨j + 1, by simpa using hj1, ?_, ?_⟩
        · simpa [pruneOld, h] using hj2
        · intro i hi
          cases i with
          | zero => simpa using h
          | succ i2 => exact hj3 i2 (by omega)
      · exact ⟨0, by simp, by simp [pruneOld, h], fun i hi => absurd hi (by omega)⟩

/-- The invariant carried along a run of the rate limiter: `h` is the full
chronological list of recorded call instants, `q` the current deque (the
most recent suffix of `h`, at most 10 long), `cur` the last recorded
instant. Entries no longer in the deque are more than a window older than
`cur`, and any two recorded calls 10 apart are more than a window apart. -/
structure RLInv (h q : List ℚ) (cur : ℚ) : Prop where
  suffix : q = h.drop (h.length - q.length)
  len10 : q.length ≤ AGENTQL_RATE_LIMIT
  sorted : h.Sorted (· ≤ ·)
  upper : ∀ x ∈ h, x ≤ cur
  dropped : ∀ i, i < h.length - q.length → h.getD i 0 + 60 < cur
  gap : ∀ i, i + 10 < h.length → h.getD i 0 + 60 < h.getD (i + 10) 0

lemma rateLimitStep_inv (h q : List ℚ) (cur now : ℚ) (inv : RLInv h q cur)
    (hnow : cur ≤ now) :
    now ≤ (rateLimitStep q now).1 ∧
    RLInv (h ++ [(rateLimitStep q now).1]) (rateLimitStep q now).2
      ((rateLimitStep q now).1) := by
  obtain ⟨j, hjle, hpe, hold⟩ := pruneOld_suffix now q
  have hq := inv.suffix
  have hlen10 := inv.len10
  set d := h.length - q.length with hd
  have hqlen2 : q.length = h.length - d := by
    conv_lhs => rw [hq]
    rw [List.length_drop]
  have hdh : d ≤ h.length := Nat.sub_le _ _
  have hp : pruneOld now q = h.drop (d + j) := by
    rw [hpe, hq, List.drop_drop, Nat.add_comm]
  have hplen : (pruneOld now q).length = h.length - (d + j) := by
    rw [hp, List.length_drop]
  have hdjle : d + j ≤ h.length := by
    simp only [AGENTQL_RATE_LIMIT] at hlen10
    omega
  -- the recorded instant is at least `now`
  have hrecA : now ≤ (rateLimitStep q now).1 := by
    simp only [rateLimitStep]
    split_ifs with h1 h2
    · linarith
    · exact le_refl now
    · exact le_refl now
  -- when the pruned deque is full, the recorded instant clears the window
  have hrecB : AGENTQL_RATE_LIMIT ≤ (pruneOld now q).length →
      (pruneOld now q).headD 0 + 60 < (rateLimitStep q now).1 := by
    intro hfull
    simp only [rateLimitStep, AGENTQL_RATE_WINDOW]
    rw [if_pos hfull]
    split_ifs with hw
    · linarith
    · push_neg at hw
      linarith
  have hcr : cur ≤ (rateLimitStep q now).1 := le_trans hnow hrecA
  -- any entry pruned out (index below d + j) is strictly more than a window old
  have hkey : ∀ i, i < d + j → h.getD i 0 + 60 < (rateLimitStep q now).1 := by
    intro i hi
    by_cases hid : i < d
    · have := inv.dropped i (by omega)
      linarith
    · have h1 := hold (i - d) (by omega)
      simp only [AGENTQL_RATE_WINDOW] at h1
      have h2 : q.getD (i - d) 0 = h.getD i 0 := by
        rw [hq, getD_drop]
        congr 1
        omega
      rw [h2] at h1
      linarith
  -- the head of a full pruned deque is the call 10 positions back
  have hhead : (pruneOld now q).headD 0 = h.getD (d + j) 0 := by
    rw [headD_eq_getD, hp, getD_drop, Nat.add_zero]
  refine ⟨hrecA, ?_⟩
  have hq2 : (rateLimitStep q now).2 =
      (if AGENTQL_RATE_LIMIT < (pruneOld now q ++ [(rateLimitStep q now).1]).length
       then (pruneOld now q ++ [(rateLimitStep q now).1]).tail
       else pruneOld now q ++ [(rateLimitStep q now).1]) := rfl
  by_cases hfull : AGENTQL_RATE_LIMIT ≤ (pruneOld now q).length
  · -- the pruned deque holds exactly 10 entries; the oldest is dropped on append
    have h10 : (pruneOld now q).length = 10 := by
      have : (pruneOld now q).length ≤ q.length := by
        rw [hpe, List.length_drop]
        omega
      simp only [AGENTQL_RATE_LIMIT] at hfull hlen10
      omega
    have hm10 : h.length - (d + j) = 10 := by rw [← hplen, h10]
    have hdj : d + j = h.length - 10 := by omega
    have htail : (rateLimitStep q now).2 = h.drop (d + j + 1) ++ [(rateLimitStep q now).1] := by
      rw [hq2, if_pos (by simp [h10, AGENTQL_RATE_LIMIT])]
      rw [hp, ← List.tail_drop]
      have hne : h.drop (d + j) ≠ [] := by
        intro hnil
        rw [← hp] at hnil
        rw [hnil] at h10
        simp at h10
      cases hdp : h.drop (d + j) with
      | nil => exact absurd hdp hne
      | cons x xs => rfl
    have hlen2 : (rateLimitStep q now).2.length = 10 := by
      rw [htail]
      simp
      omega
    refine ⟨?_, ?_, ?_, ?_, ?_, ?_⟩
    · -- suffix
      rw [hlen2, htail]
      have hbound : d + j + 1 ≤ h.length := by omega
      rw [List.length_append, List.length_singleton]
      have : h.length + 1 - 10 = d + j + 1 := by omega
      rw [this, List.drop_append_of_le_length hbound]
    · rw [hlen2]
      decide
    · exact List.pairwise_append.mpr ⟨inv.sorted, List.sorted_singleton _,
        fun x hx y hy => by
          simp only [List.mem_singleton] at hy
          subst hy
          exact le_trans (inv.upper x hx) hcr⟩
    · intro x hx
      rcases List.mem_append.mp hx with hx | hx
      · exact le_trans (inv.upper x hx) hcr
      · simp only [List.mem_singleton] at hx
        subst hx
        exact le_refl _
    · intro i hi
      rw [hlen2, List.length_append, List.length_singleton] at hi
      have hi2 : i < h.length := by omega
      rw [getD_append_lt _ _ _ hi2]
      by_cases hie : i < d + j
      · exact hkey i hie
      · have : i = d + j := by omega
        subst this
        rw [← hhead]
        exact hrecB hfull
    · intro i hi
      rw [List.length_append, List.length_singleton] at hi
      by_cases hlt : i + 10 < h.length
      · rw [getD_append_lt _ _ _ (by omega), getD_append_lt _ _ _ hlt]
        exact inv.gap i hlt
      · have hieq : i + 10 = h.length := by omega
        rw [getD_append_lt _ _ _ (by omega), hieq, getD_append_last]
        have : i = d + j := by omega
        subst this
        rw [← hhead]
        exact hrecB hfull
  · -- fewer than 10 pruned entries: plain append
    have h10 : (pruneOld now q).length < 10 := by
      simp only [AGENTQL_RATE_LIMIT] at hfull
      omega
    have happ : (rateLimitStep q now).2 = h.drop (d + j) ++ [(rateLimitStep q now).1] := by
      rw [hq2, if_neg (by simp [AGENTQL_RATE_LIMIT]; omega), hp]
    have hlen2 : (rateLimitStep q now).2.length = h.length - (d + j) + 1 := by
      rw [happ]
      simp [hplen]
    refine ⟨?_, ?_, ?_, ?_, ?_, ?_⟩
    · rw [hlen2, happ]
      rw [List.length_append, List.length_singleton]
      have : h.length + 1 - (h.length - (d + j) + 1) = d + j := by omega
      rw [this, List.drop_append_of_le_length hdjle]
    · rw [hlen2]
      simp only [AGENTQL_RATE_LIMIT]
      omega
    · exact List.pairwise_append.mpr ⟨inv.sorted, List.sorted_singleton _,
        fun x hx y hy => by
          simp only [List.mem_singleton] at hy
          subst hy
          exact le_trans (inv.upper x hx) hcr⟩
    · intro x hx
      rcases List.mem_append.mp hx with hx | hx
      · exact le_trans (inv.upper x hx) hcr
      · simp only [List.mem_singleton] at hx
        subst hx
        exact le_refl _
    · intro i hi
      rw [hlen2, List.length_append, List.length_singleton] at hi
      have hi2 : i < d + j := by omega
      rw [getD_append_lt _ _ _ (by omega)]
      exact hkey i hi2
    · intro i hi
      rw [List.length_append, List.length_singleton] at hi
      by_cases hlt : i + 10 < h.length
      · rw [getD_append_lt _ _ _ (by omega), getD_append_lt _ _ _ hlt]
        exact inv.gap i hlt
      · have hieq : i + 10 = h.length := by omega
        rw [getD_append_lt _ _ _ (by omega), hieq, getD_append_last]
        have hplt : h.length - (d + j) < 10 := by rw [← hplen]; exact h10
        have : i < d + j := by omega
        exact hkey i this

lemma rlRun_gap (reqs : List ℚ) :
    ∀ (h q : List ℚ) (cur : ℚ), RLInv h q cur →
      (∀ i, i + 10 < (h ++ rlRun q cur reqs).length →
        (h ++ rlRun q cur reqs).getD i 0 + 60 <
          (h ++ rlRun q cur reqs).getD (i + 10) 0) ∧
      (h ++ rlRun q cur reqs).Sorted (· ≤ ·) := by
  induction reqs with
  | nil =>
      intro h q cur inv
      simp only [rlRun, List.append_nil]
      exact ⟨inv.gap, inv.sorted⟩
  | cons r rest ih =>
      intro h q cur inv
      have hstep := rateLimitStep_inv h q cur (max cur r) inv (le_max_left _ _)
      have heq : h ++ rlRun q cur (r :: rest) =
          (h ++ [(rateLimitStep q (max cur r)).1]) ++
            rlRun (rateLimitStep q (max cur r)).2 (rateLimitStep q (max cur r)).1 rest := by
        simp [rlRun, List.append_assoc]
      rw [heq]
      exact ih _ _ _ hstep.2

lemma rlRun_length (reqs : List ℚ) : ∀ (q : List ℚ) (cur : ℚ),
    (rlRun q cur reqs).length = reqs.length := by
  induction reqs with
  | nil => intro q cur; rfl
  | cons r rest ih =>
      intro q cur
      simp only [rlRun, List.length_cons, ih]

lemma recordedTimes_length (reqs : List ℚ) :
    (recordedTimes reqs).length = reqs.length := by
  cases reqs with
  | nil => rfl
  | cons r rest => exact rlRun_length (r :: rest) [] r

lemma sorted_getD_mono (l : List ℚ) (hs : l.Sorted (· ≤ ·)) (i j : Nat)
    (hij : i ≤ j) (hj : j < l.length) : l.getD i 0 ≤ l.getD j 0 := by
  have hi : i < l.length := lt_of_le_of_lt hij hj
  rw [List.getD_eq_getElem?_getD, List.getD_eq_getElem?_getD,
      List.getElem?_eq_getElem hi, List.getElem?_eq_getElem hj]
  simp only [Option.getD_some]
  rcases eq_or_lt_of_le hij with rfl | hlt
  · exact le_refl _
  · have h2 := List.pairwise_iff_get.mp hs ⟨i, hi⟩ ⟨j, hj⟩ hlt
    simpa [List.get_eq_getElem] using h2

/-- C7 (confirmed, under the idealised clock: `time.sleep` advances time
exactly): for any sequence of sequential resolver calls starting from a
fresh deque, any two recorded call instants 10 apart are more than 60
seconds apart — hence at most 10 calls fall inside any rolling 60-second
window; and whenever the pruned deque is full, the next call is recorded
only after the oldest recorded call is (strictly more than) 60 seconds
old. -/
theorem c7_rate_limiter_window :
    (∀ (reqs : List ℚ) (i j : Nat), i + 10 ≤ j →
      j < (recordedTimes reqs).length →
      (recordedTimes reqs).getD i 0 + 60 < (recordedTimes reqs).getD j 0) ∧
    (∀ (times : List ℚ) (now : ℚ),
      AGENTQL_RATE_LIMIT ≤ (pruneOld now times).length →
      (pruneOld now times).headD 0 + 60 < (rateLimitStep times now).1) := by
  constructor
  · intro reqs i j hij hj
    cases reqs with
    | nil => simp [recordedTimes] at hj
    | cons r rest =>
        have inv0 : RLInv [] [] r := by
          refine ⟨by simp, by simp, by simp, ?_, ?_, ?_⟩
          · intro x hx
            exact absurd hx (List.not_mem_nil x)
          · intro i2 hi2
            simp at hi2
          · intro i2 hi2
            simp at hi2
        obtain ⟨hgap, hsort⟩ := rlRun_gap (r :: rest) [] [] r inv0
        simp only [List.nil_append] at hgap hsort
        have hR : recordedTimes (r :: rest) = rlRun [] r (r :: rest) := rfl
        rw [hR] at hj ⊢
        have h1 := hgap i (by omega)
        have h2 := sorted_getD_mono _ hsort (i + 10) j hij hj
        linarith
  · intro times now hfull
    simp only [rateLimitStep, AGENTQL_RATE_WINDOW]
    rw [if_pos hfull]
    split_ifs with hw
    · linarith
    · push_neg at hw
      linarith

/-- Ten calls issued instantaneously, then an eleventh inside the same
window. -/
def rlBurst : List ℚ := List.replicate 10 0 ++ [0]

/-- C7 witness: `c7_rate_limiter_window` at the burst scenario — the 11th
recorded instant clears the first by more than the window (it is recorded
at t = 61), and a full deque blocks until its oldest entry ages past 60
seconds. -/
theorem c7_rate_limiter_window_witness :
    (recordedTimes rlBurst).getD 0 0 + 60 < (recordedTimes rlBurst).getD 10 0 ∧
    (pruneOld 0 (List.replicate 10 (0 : ℚ))).headD 0 + 60 <
      (rateLimitStep (List.replicate 10 (0 : ℚ)) 0).1 := by
  have hlen : (recordedTimes rlBurst).length = 11 := by
    rw [recordedTimes_length]
    decide
  have h0 : pruneOld 0 (List.replicate 10 (0 : ℚ)) = List.replicate 10 0 := by
    show pruneOld 0 (0 :: List.replicate 9 (0 : ℚ)) = _
    simp only [pruneOld]
    rw [if_neg (by norm_num [AGENTQL_RATE_WINDOW])]
    rfl
  refine ⟨c7_rate_limiter_window.1 rlBurst 0 10 (by decide) (by rw [hlen]; decide),
    c7_rate_limiter_window.2 (List.replicate 10 0) 0 ?_⟩
  rw [h0]
  decide

end SubmitFlow
